import Mathlib

/-! Bender CC612/613 charge controller driver (`charger/bender.go`)

A shallow embedding of the register protocol layer of the Bender charger
driver, together with theorems about its operations.

Modelling conventions

* A byte is a `Fin 256`; a Go `[]byte` is a `List Byte`.
* The Modbus connection is an arbitrary deterministic state machine
  (`Transport`): every call consumes a device state and returns the Go pair
  `(bytes, err)` together with the next device state.  A `Connection` also
  carries the log of the calls issued so far (a ghost field used to speak
  about "no register access").
* Go returns `(value, error)`; the embedding returns the value together with
  an `Option` error.  A Go run-time panic (slice index out of range while
  decoding a short response) is the outer `none` of the `Option` result.
* `uint16` fields are natural numbers; every conversion to `uint16` is an
  explicit `% 65536`.
* A `float64` value is the rational it stands for.  Where the code feeds the
  result of a `float64` operation into a conversion or into another
  operation (the product in `maxCurrentMillis`, the quotients and the sum in
  `totalEnergy`), the result is rounded to the nearest `float64` (`fl64`).
  The quotient of `getPhaseValues`, which is returned as it is, is kept
  exact, and the theorems about it state exact rationals.
-/

namespace Bender

/-! ## Bytes and big-endian coding (`encoding/binary`) -/

abbrev Byte := Fin 256

/-- A Go string, as the sequence of its bytes. -/
abbrev GoString := List Byte

namespace BigEndian

/-- The Go `binary.BigEndian.Uint16(b)`: panics (`none`) when `len(b) < 2`. -/
def Uint16 : List Byte → Option Nat
  | b0 :: b1 :: _ => some (b0.val * 256 + b1.val)
  | _ => none

/-- The Go `binary.BigEndian.Uint32(b)`: panics (`none`) when `len(b) < 4`. -/
def Uint32 : List Byte → Option Nat
  | b0 :: b1 :: b2 :: b3 :: _ =>
      some (b0.val * 16777216 + b1.val * 65536 + b2.val * 256 + b3.val)
  | _ => none

/-- The Go `binary.BigEndian.PutUint16(b, v)` on a fresh `make([]byte, 2)`; `v` is
taken modulo `2^16`. -/
def PutUint16 (v : Nat) : List Byte :=
  [Fin.ofNat (v / 256 % 256), Fin.ofNat (v % 256)]

end BigEndian

/-- The Go slice expression `b[lo:]`: panics (`none`) when `lo > len(b)`. -/
def sliceFrom (b : List Byte) (lo : Nat) : Option (List Byte) :=
  if lo ≤ b.length then some (b.drop lo) else none

/-- The Go slice expression `b[lo:hi]` for `lo ≤ hi`: panics (`none`) when
`hi > len(b)`. -/
def slice (b : List Byte) (lo hi : Nat) : Option (List Byte) :=
  if lo ≤ hi ∧ hi ≤ b.length then some ((b.drop lo).take (hi - lo)) else none

/-- The value of `math.MaxUint32`. -/
def MaxUint32 : Nat := 4294967295

/-! ## Register catalogue -/

def bendRegChargePointState : Nat := 122
def bendRegPhaseEnergy : Nat := 200
def bendRegCurrents : Nat := 212
def bendRegTotalEnergy : Nat := 218
def bendRegActivePower : Nat := 220
def bendRegVoltages : Nat := 222
def bendRegUserID : Nat := 720
def bendRegEVBatteryState : Nat := 730
def bendRegEVCCID : Nat := 741
def bendRegHemsCurrentLimit : Nat := 1000
def bendRegHemsCurrentLimit10 : Nat := 1001
def bendRegHemsPowerLimit : Nat := 1002
def bendRegFirmware : Nat := 100
def bendRegOcppCpStatus : Nat := 104
def bendRegProtocolVersion : Nat := 120
def bendRegChargePointModel : Nat := 142
def bendRegSmartVehicleDetected : Nat := 740

def powerLimit1p : Nat := 3725
def powerLimit3p : Nat := 65535

/-! ## Transport and connection -/

/-- One call on the Modbus connection. -/
inductive Call where
  | read (addr count : Nat)
  | write (addr count : Nat) (data : List Byte)
  deriving DecidableEq, Repr

/-- Whether a call is a register write. -/
def Call.isWrite : Call → Bool
  | .read _ _ => false
  | .write _ _ _ => true

/-- The Modbus connection as a deterministic state machine over device states
`σ` with transport errors `ε`; each call returns the Go pair `(bytes, err)` and
the next device state. -/
structure Transport (σ ε : Type) where
  ReadHoldingRegisters : σ → Nat → Nat → (List Byte × Option ε) × σ
  WriteMultipleRegisters : σ → Nat → Nat → List Byte → (List Byte × Option ε) × σ

/-- A live connection: the device state and the log of calls issued so far,
oldest first. -/
structure Connection (σ : Type) where
  dev : σ
  log : List Call

/-- The Go `conn.ReadHoldingRegisters(addr, count)`. -/
def Connection.ReadHoldingRegisters {σ ε : Type} (T : Transport σ ε) (c : Connection σ)
    (addr count : Nat) : (List Byte × Option ε) × Connection σ :=
  let r := T.ReadHoldingRegisters c.dev addr count
  (r.1, { dev := r.2, log := c.log ++ [Call.read addr count] })

/-- The Go `conn.WriteMultipleRegisters(addr, count, data)`. -/
def Connection.WriteMultipleRegisters {σ ε : Type} (T : Transport σ ε) (c : Connection σ)
    (addr count : Nat) (data : List Byte) : (List Byte × Option ε) × Connection σ :=
  let r := T.WriteMultipleRegisters c.dev addr count data
  (r.1, { dev := r.2, log := c.log ++ [Call.write addr count data] })

/-! ## Errors and status values -/

/-- The errors an operation can return. -/
inductive Error (ε : Type) where
  /-- an error of the transport, passed on as is -/
  | transport (e : ε)
  /-- `fmt.Errorf("invalid status: %d", s)` -/
  | invalidStatus (s : Nat)
  /-- `fmt.Errorf("invalid current %d", current)` -/
  | invalidCurrent (current : Int)
  /-- `fmt.Errorf("invalid current %.5g", current)` -/
  | invalidCurrentMillis (current : ℚ)
  /-- `api.ErrNotAvailable` -/
  | ErrNotAvailable
  /-- `api.ErrSponsorRequired` -/
  | ErrSponsorRequired
  deriving DecidableEq

/-- The values of `api.ChargeStatus` used by the driver. -/
inductive ChargeStatus where
  | StatusNone
  | StatusA
  | StatusB
  | StatusC
  deriving DecidableEq, Repr

/-- Lifts the Go `err` of a transport call. -/
def liftErr {ε : Type} : Option ε → Option (Error ε)
  | none => none
  | some e => some (Error.transport e)

/-! ## Rounding to `float64` -/

/-- The integer nearest to a rational, the even one of the two when it lies
half way between them. -/
def roundHalfEven (x : ℚ) : ℤ :=
  if x - ⌊x⌋ < 1 / 2 then ⌊x⌋
  else if 1 / 2 < x - ⌊x⌋ then ⌊x⌋ + 1
  else if ⌊x⌋ % 2 = 0 then ⌊x⌋ else ⌊x⌋ + 1

/-- The `float64` nearest to a rational: round to nearest, ties to even, on a
significand of 53 bits, which is how IEEE 754 defines the result of a
`float64` operation from its exact result.  Overflow and subnormal numbers are
left out; the quantities rounded here (tenths of a current, energies of 32-bit
registers over 1000 and their sums) are far from both where a theorem
states their value. -/
def fl64 (x : ℚ) : ℚ :=
  if x = 0 then 0
  else (roundHalfEven (x * (2 : ℚ) ^ (52 - Int.log 2 |x|)) : ℚ) / (2 : ℚ) ^ (52 - Int.log 2 |x|)

/-- A `float64` value: a rational that rounding leaves unchanged. -/
structure Float64 where
  val : ℚ
  isFloat : fl64 val = val

/-- The `float64` nearest to 6.1, the value of the Go constant `6.1`. -/
def float6_1 : ℚ := 6867989431740006 / 2 ^ 50

/-! ## The handle -/

/-- The Go `type BenderCC struct`. -/
structure BenderCC (σ : Type) where
  conn : Connection σ
  current : Nat
  regCurr : Nat
  legacy : Bool

/-- The result of a method: the Go return value, the Go `error` and the handle
after the call. -/
structure Ret (σ ε α : Type) where
  val : α
  err : Option (Error ε)
  wb : BenderCC σ

variable {σ ε : Type}

/-- Status implements the api.Charger interface. -/
def BenderCC.Status (T : Transport σ ε) (wb : BenderCC σ) : Option (Ret σ ε ChargeStatus) :=
  let r := wb.conn.ReadHoldingRegisters T bendRegChargePointState 1
  let wb1 := { wb with conn := r.2 }
  match r.1.2 with
  | some e => some ⟨.StatusNone, some (.transport e), wb1⟩
  | none =>
    match BigEndian.Uint16 r.1.1 with
    | none => none
    | some s =>
      if s = 1 then some ⟨.StatusA, none, wb1⟩
      else if s = 2 then some ⟨.StatusB, none, wb1⟩
      else if s = 3 ∨ s = 4 then some ⟨.StatusC, none, wb1⟩
      else some ⟨.StatusNone, some (.invalidStatus s), wb1⟩

/-- Enabled implements the api.Charger interface. -/
def BenderCC.Enabled (T : Transport σ ε) (wb : BenderCC σ) : Option (Ret σ ε Bool) :=
  let r := wb.conn.ReadHoldingRegisters T wb.regCurr 1
  let wb1 := { wb with conn := r.2 }
  match r.1.2 with
  | some e => some ⟨false, some (.transport e), wb1⟩
  | none =>
    match BigEndian.Uint16 r.1.1 with
    | none => none
    | some v => some ⟨decide (v ≠ 0), none, wb1⟩

/-- Enable implements the api.Charger interface. -/
def BenderCC.Enable (T : Transport σ ε) (wb : BenderCC σ) (enable : Bool) : Ret σ ε Unit :=
  let b : List Byte := if enable then BigEndian.PutUint16 wb.current else [0, 0]
  let r := wb.conn.WriteMultipleRegisters T wb.regCurr 1 b
  ⟨(), liftErr r.1.2, { wb with conn := r.2 }⟩

/-- The Go conversion `uint16(current)` of an `int64`. -/
def uint16OfInt (current : Int) : Nat := (current % 65536).toNat

/-- MaxCurrent implements the api.Charger interface. -/
def BenderCC.MaxCurrent (T : Transport σ ε) (wb : BenderCC σ) (current : Int) : Ret σ ε Unit :=
  if current < 6 then ⟨(), some (.invalidCurrent current), wb⟩
  else
    let b := BigEndian.PutUint16 (uint16OfInt current)
    let r := wb.conn.WriteMultipleRegisters T bendRegHemsCurrentLimit 1 b
    match r.1.2 with
    | none => ⟨(), none, { wb with conn := r.2, current := uint16OfInt current }⟩
    | some e => ⟨(), some (.transport e), { wb with conn := r.2 }⟩

/-- The Go conversion `uint16(x)` of a `float64`: the fraction is discarded
(truncation toward zero).  Go leaves the result for values beyond the `uint16`
range to the implementation; the values taken here are those of go on amd64,
where the conversion goes through a signed 32-bit integer: the low 16 bits of
the truncated value while it fits 32 bits, and 0 otherwise. -/
def uint16OfFloat (x : ℚ) : Nat :=
  if -2147483648 ≤ Int.tdiv x.num x.den ∧ Int.tdiv x.num x.den < 2147483648 then
    ((Int.tdiv x.num x.den) % 65536).toNat
  else 0

/-- The method maxCurrentMillis implements the api.ChargerEx interface.  The
comparison `current < 6` is exact on `float64` values; the product
`current * 10` is a `float64` operation and is rounded before the conversion
to `uint16`. -/
def BenderCC.maxCurrentMillis (T : Transport σ ε) (wb : BenderCC σ) (current : ℚ) :
    Ret σ ε Unit :=
  if current < 6 then ⟨(), some (.invalidCurrentMillis current), wb⟩
  else
    let curr := uint16OfFloat (fl64 (current * 10))
    let b := BigEndian.PutUint16 curr
    let r := wb.conn.WriteMultipleRegisters T bendRegHemsCurrentLimit10 1 b
    match r.1.2 with
    | none => ⟨(), none, { wb with conn := r.2, current := curr }⟩
    | some e => ⟨(), some (.transport e), { wb with conn := r.2 }⟩

/-! ## Metering -/

/-- One pass of the loop of `getPhaseValues` (lines 306-312): slot `i` of the
response, with the all-ones value read as zero, over the divider. -/
def phaseSlot (b : List Byte) (divider : ℚ) (i : Nat) : Option ℚ :=
  match sliceFrom b (4 * i) with
  | none => none
  | some s =>
    match BigEndian.Uint32 s with
    | none => none
    | some u32 => some (((if u32 = MaxUint32 then 0 else u32 : Nat) : ℚ) / divider)

/-- The method getPhaseValues returns 3 sequential register values. -/
def BenderCC.getPhaseValues (T : Transport σ ε) (wb : BenderCC σ) (reg : Nat) (divider : ℚ) :
    Option (Ret σ ε (ℚ × ℚ × ℚ)) :=
  let r := wb.conn.ReadHoldingRegisters T reg 6
  let wb1 := { wb with conn := r.2 }
  match r.1.2 with
  | some e => some ⟨(0, 0, 0), some (.transport e), wb1⟩
  | none =>
    match phaseSlot r.1.1 divider 0, phaseSlot r.1.1 divider 1, phaseSlot r.1.1 divider 2 with
    | some r0, some r1, some r2 => some ⟨(r0, r1, r2), none, wb1⟩
    | _, _, _ => none

/-- The method currents implements the api.PhaseCurrents interface. -/
def BenderCC.currents (T : Transport σ ε) (wb : BenderCC σ) : Option (Ret σ ε (ℚ × ℚ × ℚ)) :=
  wb.getPhaseValues T bendRegCurrents 1000

/-- The method voltages implements the api.PhaseVoltages interface. -/
def BenderCC.voltages (T : Transport σ ε) (wb : BenderCC σ) : Option (Ret σ ε (ℚ × ℚ × ℚ)) :=
  wb.getPhaseValues T bendRegVoltages 1

/-- The method currentPower implements the api.Meter interface. -/
def BenderCC.currentPower (T : Transport σ ε) (wb : BenderCC σ) : Option (Ret σ ε ℚ) :=
  if wb.legacy then
    match wb.currents T with
    | none => none
    | some c => some ⟨230 * (c.val.1 + c.val.2.1 + c.val.2.2), c.err, c.wb⟩
  else
    let r := wb.conn.ReadHoldingRegisters T bendRegActivePower 2
    let wb1 := { wb with conn := r.2 }
    match r.1.2 with
    | some e => some ⟨0, some (.transport e), wb1⟩
    | none =>
      match BigEndian.Uint32 r.1.1 with
      | none => none
      | some v => some ⟨(v : ℚ), none, wb1⟩

/-- The term that one pass of the loop of `totalEnergy` adds (lines 283-285):
the `float64` quotient `float64(u32) / 1e3` for phase `l`, from
`b[4*l:4*(l+1)]` (the capacity of `b` is taken to be its length). -/
def energySlot (b : List Byte) (l : Nat) : Option ℚ :=
  match slice b (4 * l) (4 * (l + 1)) with
  | none => none
  | some s =>
    match BigEndian.Uint32 s with
    | none => none
    | some v => some (fl64 ((v : ℚ) / 1000))

/-- The method totalEnergy implements the api.MeterEnergy interface.  Every
`float64` division and every `total += ...` is rounded (`fl64`). -/
def BenderCC.totalEnergy (T : Transport σ ε) (wb : BenderCC σ) : Option (Ret σ ε ℚ) :=
  if wb.legacy then
    let r := wb.conn.ReadHoldingRegisters T bendRegPhaseEnergy 6
    let wb1 := { wb with conn := r.2 }
    match r.1.2 with
    | some e => some ⟨0, some (.transport e), wb1⟩
    | none =>
      match energySlot r.1.1 0, energySlot r.1.1 1, energySlot r.1.1 2 with
      | some e0, some e1, some e2 => some ⟨fl64 (fl64 (fl64 (0 + e0) + e1) + e2), none, wb1⟩
      | _, _, _ => none
  else
    let r := wb.conn.ReadHoldingRegisters T bendRegTotalEnergy 2
    let wb1 := { wb with conn := r.2 }
    match r.1.2 with
    | some e => some ⟨0, some (.transport e), wb1⟩
    | none =>
      match BigEndian.Uint32 r.1.1 with
      | none => none
      | some v => some ⟨fl64 ((v : ℚ) / 1000), none, wb1⟩

/-! ## Phase switching -/

/-- The method phases1p3p implements the api.PhaseSwitcher interface. -/
def BenderCC.phases1p3p (T : Transport σ ε) (wb : BenderCC σ) (phases : Int) : Ret σ ε Unit :=
  let b := if phases = 1 then BigEndian.PutUint16 powerLimit1p
           else BigEndian.PutUint16 powerLimit3p
  let r := wb.conn.WriteMultipleRegisters T bendRegHemsPowerLimit 1 b
  ⟨(), liftErr r.1.2, { wb with conn := r.2 }⟩

/-- The method getPhases implements the api.PhaseGetter interface. -/
def BenderCC.getPhases (T : Transport σ ε) (wb : BenderCC σ) : Option (Ret σ ε Int) :=
  let r := wb.conn.ReadHoldingRegisters T bendRegHemsPowerLimit 1
  let wb1 := { wb with conn := r.2 }
  match r.1.2 with
  | some e => some ⟨0, some (.transport e), wb1⟩
  | none =>
    match BigEndian.Uint16 r.1.1 with
    | none => none
    | some p => if p ≤ powerLimit1p then some ⟨1, none, wb1⟩ else some ⟨3, none, wb1⟩

/-! ## Identification and battery state -/

/-- Modelled from the spec: the helper `bytesAsString` of the charger package is
not part of the sources at hand.  The spec says of it: "strip trailing
null/zero bytes before interpreting as text; a block of all zero bytes decodes
to an empty string". -/
def bytesAsString (b : List Byte) : GoString :=
  (b.reverse.dropWhile (fun x => x = 0)).reverse

/-- The method identify implements the api.Identifier interface. -/
def BenderCC.identify (T : Transport σ ε) (wb : BenderCC σ) : Option (Ret σ ε GoString) :=
  let fallback (wb0 : BenderCC σ) : Option (Ret σ ε GoString) :=
    let r := wb0.conn.ReadHoldingRegisters T bendRegUserID 10
    let wb1 := { wb0 with conn := r.2 }
    match r.1.2 with
    | some e => some ⟨[], some (.transport e), wb1⟩
    | none => some ⟨bytesAsString r.1.1, none, wb1⟩
  if !wb.legacy then
    let r := wb.conn.ReadHoldingRegisters T bendRegSmartVehicleDetected 1
    let wb1 := { wb with conn := r.2 }
    let after (b : List Byte) (err : Option ε) (wb2 : BenderCC σ) : Option (Ret σ ε GoString) :=
      if bytesAsString b ≠ [] ∨ err.isSome then some ⟨bytesAsString b, liftErr err, wb2⟩
      else fallback wb2
    match r.1.2 with
    | some e => after r.1.1 (some e) wb1
    | none =>
      match BigEndian.Uint16 r.1.1 with
      | none => none
      | some flag =>
        if flag ≠ 0 then
          let r2 := wb1.conn.ReadHoldingRegisters T bendRegEVCCID 6
          after r2.1.1 r2.1.2 { wb1 with conn := r2.2 }
        else after r.1.1 none wb1
  else fallback wb

/-- The method soc implements the api.Battery interface. -/
def BenderCC.soc (T : Transport σ ε) (wb : BenderCC σ) : Option (Ret σ ε ℚ) :=
  let r := wb.conn.ReadHoldingRegisters T bendRegSmartVehicleDetected 1
  let wb1 := { wb with conn := r.2 }
  match r.1.2 with
  | some e => some ⟨0, some (.transport e), wb1⟩
  | none =>
    match BigEndian.Uint16 r.1.1 with
    | none => none
    | some flag =>
      if flag = 1 then
        let r2 := wb1.conn.ReadHoldingRegisters T bendRegEVBatteryState 1
        let wb2 := { wb1 with conn := r2.2 }
        match r2.1.2 with
        | some e => some ⟨0, some (.transport e), wb2⟩
        | none =>
          match BigEndian.Uint16 r2.1.1 with
          | none => none
          | some v =>
            if v ≤ 100 then some ⟨(v : ℚ), none, wb2⟩
            else some ⟨0, some .ErrNotAvailable, wb2⟩
      else some ⟨0, some .ErrNotAvailable, wb1⟩

/-! ## Construction and capability probing -/

/-- The arguments of the call `decorateBenderCC(wb, ...)` that ends
`NewBenderCC`: the handle and, for each optional facet, whether the function
value passed for it is non-nil.  `Status`, `Enabled`, `Enable` and `MaxCurrent`
are methods of the handle itself and are always there. -/
structure Charger (σ : Type) where
  wb : BenderCC σ
  currentPower : Bool
  currents : Bool
  voltages : Bool
  totalEnergy : Bool
  soc : Bool
  identify : Bool
  maxCurrentMillis : Bool
  phases1p3p : Bool
  getPhases : Bool

/-- The outcome of the metering block of `NewBenderCC` (lines 133-154). -/
structure MeterProbe (σ : Type) where
  metering : Bool
  voltages : Bool
  soc : Bool
  wb : BenderCC σ

/-- The condition `err == nil && binary.BigEndian.Uint32(b) != math.MaxUint32`
of line 139; `none` when the decoding panics. -/
def meterPresent (r : List Byte × Option ε) : Option Bool :=
  match r.2 with
  | some _ => some false
  | none =>
    match BigEndian.Uint32 r.1 with
    | none => none
    | some v => some (decide (v ≠ MaxUint32))

/-- The condition `err == nil && binary.BigEndian.Uint32(b) > 0` of line 145;
`none` when the decoding panics. -/
def ocppMeterPresent (r : List Byte × Option ε) : Option Bool :=
  match r.2 with
  | some _ => some false
  | none =>
    match BigEndian.Uint32 r.1 with
    | none => none
    | some v => some (decide (v > 0))

/-- The register probed for metering (lines 134-137). -/
def meterReg (legacy : Bool) : Nat :=
  if legacy then bendRegPhaseEnergy else bendRegActivePower

/-- The metering block of `NewBenderCC` (lines 133-154): presence of metering,
of the "ocpp meter" and of the battery state. -/
def probeMetering (T : Transport σ ε) (wb : BenderCC σ) : Option (MeterProbe σ) :=
  let r := wb.conn.ReadHoldingRegisters T (meterReg wb.legacy) 2
  let wb1 := { wb with conn := r.2 }
  match meterPresent r.1 with
  | none => none
  | some false => some ⟨false, false, false, wb1⟩
  | some true =>
    let rv := wb1.conn.ReadHoldingRegisters T bendRegVoltages 2
    let wb2 := { wb1 with conn := rv.2 }
    match ocppMeterPresent rv.1 with
    | none => none
    | some volt =>
      if !wb.legacy then
        let rs := wb2.conn.ReadHoldingRegisters T bendRegEVBatteryState 1
        some ⟨true, volt, rs.1.2.isNone, { wb2 with conn := rs.2 }⟩
      else some ⟨true, volt, false, wb2⟩

/-- The handle built at lines 110-119: minimum current assumed, whole-amp
register active, and the legacy flag from the read of the model register. -/
def initHandle (T : Transport σ ε) (dev : σ) : BenderCC σ :=
  let wb0 : BenderCC σ :=
    { conn := ⟨dev, []⟩, current := 6, regCurr := bendRegHemsCurrentLimit, legacy := false }
  let r := wb0.conn.ReadHoldingRegisters T bendRegChargePointModel 10
  { wb0 with conn := r.2, legacy := r.1.2.isSome }

/-- The probe of the tenths register (lines 156-160): on success the facet is
there and the active register becomes the tenths register. -/
def probeMillis (T : Transport σ ε) (wb : BenderCC σ) : Bool × BenderCC σ :=
  let r := wb.conn.ReadHoldingRegisters T bendRegHemsCurrentLimit10 1
  if r.1.2.isNone then (true, { wb with conn := r.2, regCurr := bendRegHemsCurrentLimit10 })
  else (false, { wb with conn := r.2 })

/-- The probe of the power limit register (lines 162-166). -/
def probePower (T : Transport σ ε) (wb : BenderCC σ) : Bool × BenderCC σ :=
  let r := wb.conn.ReadHoldingRegisters T bendRegHemsPowerLimit 1
  (r.1.2.isNone, { wb with conn := r.2 })

/-- NewBenderCC creates BenderCC charger.  The argument `dial` is the result of
`modbus.NewConnection` and `authorized` that of `sponsor.IsAuthorized()`; the
result is the Go pair `(api.Charger, error)`, or `none` on a panic. -/
def NewBenderCC (T : Transport σ ε) (dial : Except ε σ) (authorized : Bool) :
    Option (Option (Charger σ) × Option (Error ε)) :=
  match dial with
  | .error e => some (none, some (.transport e))
  | .ok dev =>
    if !authorized then some (none, some .ErrSponsorRequired)
    else
      match probeMetering T (initHandle T dev) with
      | none => none
      | some m =>
        let pm := probeMillis T m.wb
        let pp := probePower T pm.2
        match pp.2.identify T with
        | none => none
        | some ri =>
          some (some
            { wb := ri.wb
              currentPower := m.metering
              currents := m.metering
              voltages := m.voltages
              totalEnergy := m.metering
              soc := m.soc
              identify := ri.err.isNone
              maxCurrentMillis := pm.1
              phases1p3p := pp.1
              getPhases := pp.1 }, none)

/-! ## Test transports -/

/-- A device without state on which every read returns `count` zero registers
and every write succeeds. -/
def zeroDevice : Transport Unit Unit where
  ReadHoldingRegisters := fun _ _ count => ((List.replicate (2 * count) 0, none), ())
  WriteMultipleRegisters := fun _ _ _ _ => (([], none), ())

/-- A device without state on which every call fails. -/
def deadDevice : Transport Unit Unit where
  ReadHoldingRegisters := fun _ _ _ => (([], some ()), ())
  WriteMultipleRegisters := fun _ _ _ _ => (([], some ()), ())

/-- A device without state that answers every read with the given bytes and
accepts every write. -/
def constDevice (b : List Byte) : Transport Unit Unit where
  ReadHoldingRegisters := fun _ _ _ => ((b, none), ())
  WriteMultipleRegisters := fun _ _ _ _ => (([], none), ())

/-- A handle on a device without state. -/
def handle (current regCurr : Nat) (legacy : Bool) : BenderCC Unit :=
  { conn := ⟨(), []⟩, current := current, regCurr := regCurr, legacy := legacy }

/-- A transport whose successful reads return two bytes per register asked
for, as the Modbus client library checks before it hands a response on. -/
def Transport.WellFormed (T : Transport σ ε) : Prop :=
  ∀ s addr count, (T.ReadHoldingRegisters s addr count).1.2 = none →
    (T.ReadHoldingRegisters s addr count).1.1.length = 2 * count

/-! ## All methods of the handle -/

/-- The methods of the handle. -/
inductive Method where
  | Status
  | Enabled
  | Enable (enable : Bool)
  | MaxCurrent (current : Int)
  | maxCurrentMillis (current : Float64)
  | currentPower
  | totalEnergy
  | currents
  | voltages
  | phases1p3p (phases : Int)
  | getPhases
  | identify
  | soc

/-- Whether the method is one of the two that set the current limit. -/
def Method.setsCurrent : Method → Bool
  | .MaxCurrent _ => true
  | .maxCurrentMillis _ => true
  | _ => false

/-- One call of a method: the Go `error` returned and the handle afterwards
(`none` on a panic); the returned value is dropped. -/
def call (T : Transport σ ε) (wb : BenderCC σ) : Method → Option (Option (Error ε) × BenderCC σ)
  | .Status => (wb.Status T).map fun r => (r.err, r.wb)
  | .Enabled => (wb.Enabled T).map fun r => (r.err, r.wb)
  | .Enable enable => some ((wb.Enable T enable).err, (wb.Enable T enable).wb)
  | .MaxCurrent c => some ((wb.MaxCurrent T c).err, (wb.MaxCurrent T c).wb)
  | .maxCurrentMillis c =>
    some ((wb.maxCurrentMillis T c.val).err, (wb.maxCurrentMillis T c.val).wb)
  | .currentPower => (wb.currentPower T).map fun r => (r.err, r.wb)
  | .totalEnergy => (wb.totalEnergy T).map fun r => (r.err, r.wb)
  | .currents => (wb.currents T).map fun r => (r.err, r.wb)
  | .voltages => (wb.voltages T).map fun r => (r.err, r.wb)
  | .phases1p3p n => some ((wb.phases1p3p T n).err, (wb.phases1p3p T n).wb)
  | .getPhases => (wb.getPhases T).map fun r => (r.err, r.wb)
  | .identify => (wb.identify T).map fun r => (r.err, r.wb)
  | .soc => (wb.soc T).map fun r => (r.err, r.wb)

/-- A sequence of method calls, one after the other, whatever errors they
return; `none` when one of them panics. -/
def callAll (T : Transport σ ε) (wb : BenderCC σ) : List Method → Option (BenderCC σ)
  | [] => some wb
  | m :: ms =>
    match call T wb m with
    | none => none
    | some r => callAll T r.2 ms

/-- The handle that `NewBenderCC` builds on `zeroDevice`, where the probe of the
tenths register succeeds. -/
def fineHandle : Option (BenderCC Unit) :=
  match NewBenderCC zeroDevice (.ok ()) true with
  | some (some c, _) => some c.wb
  | _ => none

/-- The charger that `NewBenderCC` returns on `zeroDevice`. -/
def zeroCharger : Charger Unit :=
  { wb :=
      { conn := ⟨(), [Call.read 142 10, Call.read 220 2, Call.read 222 2, Call.read 730 1,
          Call.read 1001 1, Call.read 1002 1, Call.read 740 1, Call.read 720 10]⟩
        current := 6
        regCurr := 1001
        legacy := false }
    currentPower := true
    currents := true
    voltages := false
    totalEnergy := true
    soc := true
    identify := true
    maxCurrentMillis := true
    phases1p3p := true
    getPhases := true }

/-- Whether every call of a log is a register read. -/
def readsOnly (l : List Call) : Bool := l.all fun c => !c.isWrite

/-- A transport that stores written registers and returns them on read: after
a successful write of one register, the read of that register that follows
succeeds with the two bytes written. -/
def Transport.StoresRegister (T : Transport σ ε) : Prop :=
  ∀ s addr data, data.length = 2 → (T.WriteMultipleRegisters s addr 1 data).1.2 = none →
    (T.ReadHoldingRegisters (T.WriteMultipleRegisters s addr 1 data).2 addr 1).1 = (data, none)

/-- The 16-bit value of register `a` in a register file, given as the list of
the writes so far, newest first; a register never written holds 0. -/
def regValue (m : List (Nat × Nat)) (a : Nat) : Nat := (m.lookup a).getD 0

/-- The bytes of `count` registers from `addr` on. -/
def memRead (m : List (Nat × Nat)) (addr : Nat) : Nat → List Byte
  | 0 => []
  | count + 1 => BigEndian.PutUint16 (regValue m addr) ++ memRead m (addr + 1) count

/-- The register file after the registers from `addr` on are set from `data`. -/
def memWrite (m : List (Nat × Nat)) (addr : Nat) : List Byte → List (Nat × Nat)
  | b0 :: b1 :: rest => memWrite ((addr, b0.val * 256 + b1.val) :: m) (addr + 1) rest
  | _ => m

/-- A device that is a plain register file: every call succeeds, a write
stores and a read returns what is stored. -/
def memDevice : Transport (List (Nat × Nat)) Unit where
  ReadHoldingRegisters := fun m addr count => ((memRead m addr count, none), m)
  WriteMultipleRegisters := fun m addr _ data => (([], none), memWrite m addr data)

/-- Whether the argument of a current-setting method fits the 16-bit register
in the unit of that register; true for every other method. -/
def Method.inRange : Method → Bool
  | .MaxCurrent c => decide (c ≤ 65535)
  | .maxCurrentMillis c => decide (c.val * 10 < 65536)
  | _ => true

/-- The handle reached from construction on an open connection (sponsor check
passed) by a sequence of method calls; `none` on a panic. -/
def reach (T : Transport σ ε) (dev : σ) (ms : List Method) : Option (BenderCC σ) :=
  match NewBenderCC T (.ok dev) true with
  | some (some c, _) => callAll T c.wb ms
  | _ => none

/-- Whether a call of `soc` goes on to read the battery state register: the
calls it adds to the log include the read of register 730 (`none` on a
panic). -/
def socReadsBattery (T : Transport σ ε) (wb : BenderCC σ) : Option Bool :=
  (wb.soc T).map fun r =>
    decide (Call.read bendRegEVBatteryState 1 ∈ r.wb.conn.log.drop wb.conn.log.length)

/-- Whether a call of `identify` goes on to read the EVCCID block: the calls it
adds to the log include the read of the 6 registers at 741 (`none` on a
panic). -/
def identifyReadsEVCCID (T : Transport σ ε) (wb : BenderCC σ) : Option Bool :=
  (wb.identify T).map fun r =>
    decide (Call.read bendRegEVCCID 6 ∈ r.wb.conn.log.drop wb.conn.log.length)

/-- The fields of the handle other than the connection. -/
def BenderCC.fields (wb : BenderCC σ) : Nat × Nat × Bool := (wb.current, wb.regCurr, wb.legacy)


/-! ## Theorems -/

/-- C1: `Status` maps the raw value `s` of register 122 to A for 1, B for 2, C
for 3 and 4, fails with the invalid-status error and no status for any other
`s`, and returns a transport error of the read as the error. -/
theorem Status_maps_raw_value (T : Transport σ ε) (wb : BenderCC σ) :
    (∀ b e dev, T.ReadHoldingRegisters wb.conn.dev bendRegChargePointState 1 = ((b, some e), dev) →
      (wb.Status T).map (fun r => (r.val, r.err))
        = some (ChargeStatus.StatusNone, some (Error.transport e))) ∧
    (∀ b dev s, T.ReadHoldingRegisters wb.conn.dev bendRegChargePointState 1 = ((b, none), dev) →
      BigEndian.Uint16 b = some s →
      (s = 1 → (wb.Status T).map (fun r => (r.val, r.err)) = some (ChargeStatus.StatusA, none)) ∧
      (s = 2 → (wb.Status T).map (fun r => (r.val, r.err)) = some (ChargeStatus.StatusB, none)) ∧
      (s = 3 ∨ s = 4 →
        (wb.Status T).map (fun r => (r.val, r.err)) = some (ChargeStatus.StatusC, none)) ∧
      (s ≠ 1 → s ≠ 2 → s ≠ 3 → s ≠ 4 →
        (wb.Status T).map (fun r => (r.val, r.err))
          = some (ChargeStatus.StatusNone, some (Error.invalidStatus s)))) := by
  refine ⟨?_, ?_⟩
  · intro b e dev h
    simp [BenderCC.Status, Connection.ReadHoldingRegisters, h]
  · intro b dev s h hs
    refine ⟨?_, ?_, ?_, ?_⟩
    · intro h1
      subst h1
      simp [BenderCC.Status, Connection.ReadHoldingRegisters, h, hs]
    · intro h2
      subst h2
      simp [BenderCC.Status, Connection.ReadHoldingRegisters, h, hs]
    · intro h34
      rcases h34 with h3 | h4
      · subst h3
        simp [BenderCC.Status, Connection.ReadHoldingRegisters, h, hs]
      · subst h4
        simp [BenderCC.Status, Connection.ReadHoldingRegisters, h, hs]
    · intro h1 h2 h3 h4
      simp [BenderCC.Status, Connection.ReadHoldingRegisters, h, hs, h1, h2, h3, h4]

/-- C1, at a device whose status register holds 4: the status is C. -/
theorem Status_maps_raw_value_witness :
    (constDevice [0, 4]).ReadHoldingRegisters (handle 6 1000 false).conn.dev
        bendRegChargePointState 1 = (([0, 4], none), ()) ∧
    BigEndian.Uint16 [0, 4] = some 4 ∧
    ((handle 6 1000 false).Status (constDevice [0, 4])).map (fun r => (r.val, r.err))
      = some (ChargeStatus.StatusC, none) :=
  ⟨rfl, rfl,
    ((Status_maps_raw_value (constDevice [0, 4]) (handle 6 1000 false)).2
      [0, 4] () 4 rfl rfl).2.2.1 (Or.inr rfl)⟩

/-! ### Coding lemmas -/

theorem Uint16_PutUint16 (v : Nat) :
    BigEndian.Uint16 (BigEndian.PutUint16 v) = some (v % 65536) := by
  simp only [BigEndian.PutUint16, BigEndian.Uint16, Fin.ofNat, Option.some.injEq]
  omega

theorem uint16OfInt_of_range (amps : Int) (h0 : 0 ≤ amps) (h1 : amps ≤ 65535) :
    (uint16OfInt amps : Int) = amps := by
  unfold uint16OfInt
  omega

/-! ### Setting and enabling the current limit -/

/-- C2: on the handle built on a device whose tenths register can be read (fine
control detected, active register 1001), a successful `MaxCurrent 10` followed
by `Enable true` writes the value 10 to the tenths register, that is 1.0 A, and
not the value 100 that stands for 10 A there. -/
theorem MaxCurrent_Enable_on_fine_handle :
    (fineHandle.map fun wb =>
      (wb.regCurr, (wb.MaxCurrent zeroDevice 10).err.isNone,
        ((wb.MaxCurrent zeroDevice 10).wb.Enable zeroDevice true).wb.conn.log.getLast?))
      = some (1001, true, some (Call.write 1001 1 [0, 10])) ∧
    BigEndian.Uint16 [0, 10] = some 10 ∧ (10 : Nat) ≠ 10 * 10 := by
  refine ⟨by rfl, by rfl, by decide⟩

/-- C3: on a device whose tenths register can be read, `NewBenderCC` returns a
handle with the fine-control facet, the tenths register 1001 as the active
register and the cached current 6, which in tenths of an amp is 0.6 A and
below 60. -/
theorem NewBenderCC_fine_cache_in_whole_amps :
    ((NewBenderCC zeroDevice (.ok ()) true).map fun r =>
      (r.1.map fun c => (c.maxCurrentMillis, c.wb.regCurr, c.wb.current), r.2.isNone))
      = some (some (true, 1001, 6), true) ∧ ¬ (60 ≤ 6) := by
  refine ⟨by rfl, by decide⟩

/-- C4: `MaxCurrent` and `maxCurrentMillis` reject every value below 6 with the
validation error and return the handle as it was: device state and call log
untouched (no read or write issued), cached current, active register and
layout unchanged. -/
theorem setCurrent_below_six_rejected (T : Transport σ ε) (wb : BenderCC σ) :
    (∀ amps : Int, amps < 6 →
      (wb.MaxCurrent T amps).err = some (Error.invalidCurrent amps) ∧
      (wb.MaxCurrent T amps).wb = wb ∧
      (wb.MaxCurrent T amps).wb.conn.log = wb.conn.log) ∧
    (∀ amps : ℚ, amps < 6 →
      (wb.maxCurrentMillis T amps).err = some (Error.invalidCurrentMillis amps) ∧
      (wb.maxCurrentMillis T amps).wb = wb ∧
      (wb.maxCurrentMillis T amps).wb.conn.log = wb.conn.log) := by
  refine ⟨?_, ?_⟩
  · intro amps h
    simp [BenderCC.MaxCurrent, h]
  · intro amps h
    simp [BenderCC.maxCurrentMillis, h]

/-- C4, at 5 A on a device that would accept the write. -/
theorem setCurrent_below_six_rejected_witness :
    (5 : Int) < 6 ∧
    ((handle 6 1000 false).MaxCurrent zeroDevice 5).err = some (Error.invalidCurrent 5) ∧
    ((handle 6 1000 false).MaxCurrent zeroDevice 5).wb = handle 6 1000 false ∧
    ((handle 6 1000 false).MaxCurrent zeroDevice 5).wb.conn.log = (handle 6 1000 false).conn.log :=
  ⟨by decide, (setCurrent_below_six_rejected zeroDevice (handle 6 1000 false)).1 5 (by decide)⟩

/-- C5, as stated, fails at 65536 A: the write succeeds and no error is
returned, but the value written to register 1000 and cached is 0. -/
theorem MaxCurrent_65536_writes_zero :
    (6 : Int) ≤ 65536 ∧
    ((handle 6 1000 false).MaxCurrent zeroDevice 65536).err = none ∧
    ((handle 6 1000 false).MaxCurrent zeroDevice 65536).wb.conn.log
      = [Call.write 1000 1 [0, 0]] ∧
    BigEndian.Uint16 [0, 0] = some 0 ∧
    ((handle 6 1000 false).MaxCurrent zeroDevice 65536).wb.current = 0 ∧
    ((((handle 6 1000 false).MaxCurrent zeroDevice 65536).wb.current : Nat) : Int) ≠ 65536 := by
  refine ⟨by decide, by rfl, by rfl, by rfl, by rfl, by decide⟩

/-- C5, amended: for every `amps` from 6 to 65535 and a transport whose write
to register 1000 succeeds, `MaxCurrent amps` returns no error, issues exactly
one call, a write of one register at 1000 whose 16-bit value is `amps`, and
leaves `amps` in the cached current. -/
theorem MaxCurrent_writes_amps (T : Transport σ ε) (wb : BenderCC σ) (amps : Int)
    (h6 : 6 ≤ amps) (h16 : amps ≤ 65535)
    (hw : ∀ data, (T.WriteMultipleRegisters wb.conn.dev bendRegHemsCurrentLimit 1 data).1.2 = none) :
    (wb.MaxCurrent T amps).err = none ∧
    (∃ data, (wb.MaxCurrent T amps).wb.conn.log = wb.conn.log ++ [Call.write 1000 1 data] ∧
      (BigEndian.Uint16 data).map Int.ofNat = some amps) ∧
    ((wb.MaxCurrent T amps).wb.current : Int) = amps := by
  have hlt : ¬ amps < 6 := by omega
  have hu := uint16OfInt_of_range amps (by omega) h16
  have hmod : uint16OfInt amps % 65536 = uint16OfInt amps := by
    apply Nat.mod_eq_of_lt
    omega
  refine ⟨?_, ⟨BigEndian.PutUint16 (uint16OfInt amps), ?_, ?_⟩, ?_⟩
  · simp [BenderCC.MaxCurrent, hlt, Connection.WriteMultipleRegisters, hw]
  · simp [BenderCC.MaxCurrent, hlt, Connection.WriteMultipleRegisters, hw]
    rfl
  · rw [Uint16_PutUint16, hmod]
    simp [hu]
  · simp [BenderCC.MaxCurrent, hlt, Connection.WriteMultipleRegisters, hw, hu]

/-- C5, amended, at 10 A on a device that accepts every write. -/
theorem MaxCurrent_writes_amps_witness :
    (6 : Int) ≤ 10 ∧ (10 : Int) ≤ 65535 ∧
    ((handle 6 1000 false).MaxCurrent zeroDevice 10).err = none ∧
    (∃ data, ((handle 6 1000 false).MaxCurrent zeroDevice 10).wb.conn.log
        = (handle 6 1000 false).conn.log ++ [Call.write 1000 1 data] ∧
      (BigEndian.Uint16 data).map Int.ofNat = some 10) ∧
    (((handle 6 1000 false).MaxCurrent zeroDevice 10).wb.current : Int) = 10 :=
  ⟨by decide, by decide,
    MaxCurrent_writes_amps zeroDevice (handle 6 1000 false) 10 (by decide) (by decide)
      (fun _ => rfl)⟩


theorem Status_fields (T : Transport σ ε) (wb : BenderCC σ) (r : Ret σ ε ChargeStatus)
    (h : wb.Status T = some r) : r.wb.fields = wb.fields := by
  unfold BenderCC.Status at h
  simp only at h
  repeat' split at h
  all_goals first | (cases h; rfl) | cases h

theorem Enabled_fields (T : Transport σ ε) (wb : BenderCC σ) (r : Ret σ ε Bool)
    (h : wb.Enabled T = some r) : r.wb.fields = wb.fields := by
  unfold BenderCC.Enabled at h
  simp only at h
  repeat' split at h
  all_goals first | (cases h; rfl) | cases h

theorem getPhaseValues_fields (T : Transport σ ε) (wb : BenderCC σ) (reg : Nat) (d : ℚ)
    (r : Ret σ ε (ℚ × ℚ × ℚ)) (h : wb.getPhaseValues T reg d = some r) :
    r.wb.fields = wb.fields := by
  unfold BenderCC.getPhaseValues at h
  simp only at h
  repeat' split at h
  all_goals first | (cases h; rfl) | cases h

theorem currentPower_fields (T : Transport σ ε) (wb : BenderCC σ) (r : Ret σ ε ℚ)
    (h : wb.currentPower T = some r) : r.wb.fields = wb.fields := by
  unfold BenderCC.currentPower at h
  simp only at h
  split at h
  · split at h
    · cases h
    · rename_i c hc
      cases h
      exact getPhaseValues_fields T wb _ _ c hc
  · repeat' split at h
    all_goals first | (cases h; rfl) | cases h

theorem totalEnergy_fields (T : Transport σ ε) (wb : BenderCC σ) (r : Ret σ ε ℚ)
    (h : wb.totalEnergy T = some r) : r.wb.fields = wb.fields := by
  unfold BenderCC.totalEnergy at h
  simp only at h
  repeat' split at h
  all_goals first | (cases h; rfl) | cases h

theorem getPhases_fields (T : Transport σ ε) (wb : BenderCC σ) (r : Ret σ ε Int)
    (h : wb.getPhases T = some r) : r.wb.fields = wb.fields := by
  unfold BenderCC.getPhases at h
  simp only at h
  repeat' split at h
  all_goals first | (cases h; rfl) | cases h

theorem identify_fields (T : Transport σ ε) (wb : BenderCC σ) (r : Ret σ ε GoString)
    (h : wb.identify T = some r) : r.wb.fields = wb.fields := by
  unfold BenderCC.identify at h
  simp only at h
  repeat' split at h
  all_goals first | (cases h; rfl) | cases h

theorem soc_fields (T : Transport σ ε) (wb : BenderCC σ) (r : Ret σ ε ℚ)
    (h : wb.soc T = some r) : r.wb.fields = wb.fields := by
  unfold BenderCC.soc at h
  simp only at h
  repeat' split at h
  all_goals first | (cases h; rfl) | cases h

theorem call_fields (T : Transport σ ε) (wb : BenderCC σ) (m : Method)
    (r : Option (Error ε) × BenderCC σ) (hm : m.setsCurrent = false) (h : call T wb m = some r) :
    r.2.fields = wb.fields := by
  cases m <;> simp only [call, Option.map_eq_some', Option.some.injEq] at h
  case Status => obtain ⟨a, h, rfl⟩ := h; exact Status_fields T wb a h
  case Enabled => obtain ⟨a, h, rfl⟩ := h; exact Enabled_fields T wb a h
  case Enable => cases h; rfl
  case MaxCurrent => cases hm
  case maxCurrentMillis => cases hm
  case currentPower => obtain ⟨a, h, rfl⟩ := h; exact currentPower_fields T wb a h
  case totalEnergy => obtain ⟨a, h, rfl⟩ := h; exact totalEnergy_fields T wb a h
  case currents => obtain ⟨a, h, rfl⟩ := h; exact getPhaseValues_fields T wb _ _ a h
  case voltages => obtain ⟨a, h, rfl⟩ := h; exact getPhaseValues_fields T wb _ _ a h
  case phases1p3p => cases h; rfl
  case getPhases => obtain ⟨a, h, rfl⟩ := h; exact getPhases_fields T wb a h
  case identify => obtain ⟨a, h, rfl⟩ := h; exact identify_fields T wb a h
  case soc => obtain ⟨a, h, rfl⟩ := h; exact soc_fields T wb a h

theorem MaxCurrent_regCurr (T : Transport σ ε) (wb : BenderCC σ) (c : Int) :
    (wb.MaxCurrent T c).wb.regCurr = wb.regCurr ∧ (wb.MaxCurrent T c).wb.legacy = wb.legacy := by
  unfold BenderCC.MaxCurrent
  simp only
  repeat' split
  all_goals exact ⟨rfl, rfl⟩

theorem maxCurrentMillis_regCurr (T : Transport σ ε) (wb : BenderCC σ) (c : ℚ) :
    (wb.maxCurrentMillis T c).wb.regCurr = wb.regCurr ∧
    (wb.maxCurrentMillis T c).wb.legacy = wb.legacy := by
  unfold BenderCC.maxCurrentMillis
  simp only
  repeat' split
  all_goals exact ⟨rfl, rfl⟩

theorem call_regCurr (T : Transport σ ε) (wb : BenderCC σ) (m : Method)
    (r : Option (Error ε) × BenderCC σ) (h : call T wb m = some r) :
    r.2.regCurr = wb.regCurr ∧ r.2.legacy = wb.legacy := by
  by_cases hm : m.setsCurrent = false
  · have hf := call_fields T wb m r hm h
    simp only [BenderCC.fields, Prod.mk.injEq] at hf
    exact ⟨hf.2.1, hf.2.2⟩
  · cases m <;> simp [Method.setsCurrent] at hm
    · simp only [call, Option.some.injEq] at h
      cases h
      exact MaxCurrent_regCurr T wb _
    · simp only [call, Option.some.injEq] at h
      cases h
      exact maxCurrentMillis_regCurr T wb _

theorem callAll_regCurr (T : Transport σ ε) (ms : List Method) :
    ∀ (wb wb1 : BenderCC σ), callAll T wb ms = some wb1 →
      wb1.regCurr = wb.regCurr ∧ wb1.legacy = wb.legacy := by
  induction ms with
  | nil =>
    intro wb wb1 h
    simp only [callAll, Option.some.injEq] at h
    subst h
    exact ⟨rfl, rfl⟩
  | cons m ms ih =>
    intro wb wb1 h
    simp only [callAll] at h
    split at h
    · cases h
    · rename_i r hr
      have h1 := ih r.2 wb1 h
      have h2 := call_regCurr T wb m r hr
      exact ⟨h1.1.trans h2.1, h1.2.trans h2.2⟩

theorem MaxCurrent_current_changed (T : Transport σ ε) (wb : BenderCC σ) (c : Int)
    (h : (wb.MaxCurrent T c).wb.current ≠ wb.current) :
    (wb.MaxCurrent T c).err = none ∧
    ∃ data, (wb.MaxCurrent T c).wb.conn.log
        = wb.conn.log ++ [Call.write bendRegHemsCurrentLimit 1 data] ∧
      (T.WriteMultipleRegisters wb.conn.dev bendRegHemsCurrentLimit 1 data).1.2 = none := by
  unfold BenderCC.MaxCurrent at h ⊢
  simp only at h ⊢
  split
  · rename_i hc
    simp [hc] at h
  · rename_i hc
    simp only [hc, if_false] at h
    split
    · rename_i hw
      exact ⟨rfl, _, rfl, hw⟩
    · rename_i e hw
      rw [hw] at h
      exact absurd rfl h

theorem maxCurrentMillis_current_changed (T : Transport σ ε) (wb : BenderCC σ) (c : ℚ)
    (h : (wb.maxCurrentMillis T c).wb.current ≠ wb.current) :
    (wb.maxCurrentMillis T c).err = none ∧
    ∃ data, (wb.maxCurrentMillis T c).wb.conn.log
        = wb.conn.log ++ [Call.write bendRegHemsCurrentLimit10 1 data] ∧
      (T.WriteMultipleRegisters wb.conn.dev bendRegHemsCurrentLimit10 1 data).1.2 = none := by
  unfold BenderCC.maxCurrentMillis at h ⊢
  simp only at h ⊢
  split
  · rename_i hc
    simp [hc] at h
  · rename_i hc
    simp only [hc, if_false] at h
    split
    · rename_i hw
      exact ⟨rfl, _, rfl, hw⟩
    · rename_i e hw
      rw [hw] at h
      exact absurd rfl h

/-- C6: `Enable false` issues one write of the 16-bit value 0 to the active
current-limit register, `Enable true` one write of the cached current to it,
and `Enable` with either argument, whatever the transport answers, returns the
transport's error and leaves cached current, active register and layout as
they were. -/
theorem Enable_writes_cache_and_frames (T : Transport σ ε) (wb : BenderCC σ)
    (h16 : wb.current < 65536) :
    (∃ data, (wb.Enable T false).wb.conn.log = wb.conn.log ++ [Call.write wb.regCurr 1 data] ∧
      data.length = 2 ∧ BigEndian.Uint16 data = some 0) ∧
    (∃ data, (wb.Enable T true).wb.conn.log = wb.conn.log ++ [Call.write wb.regCurr 1 data] ∧
      data.length = 2 ∧ BigEndian.Uint16 data = some wb.current) ∧
    (∀ enable : Bool,
      (wb.Enable T enable).wb.current = wb.current ∧
      (wb.Enable T enable).wb.regCurr = wb.regCurr ∧
      (wb.Enable T enable).wb.legacy = wb.legacy ∧
      (∀ data, (wb.Enable T enable).wb.conn.log = wb.conn.log ++ [Call.write wb.regCurr 1 data] →
        (wb.Enable T enable).err
          = liftErr (T.WriteMultipleRegisters wb.conn.dev wb.regCurr 1 data).1.2)) := by
  refine ⟨⟨[0, 0], rfl, rfl, rfl⟩, ⟨BigEndian.PutUint16 wb.current, ?_, rfl, ?_⟩, ?_⟩
  · simp [BenderCC.Enable, Connection.WriteMultipleRegisters]
  · rw [Uint16_PutUint16, Nat.mod_eq_of_lt h16]
  · intro enable
    refine ⟨rfl, rfl, rfl, ?_⟩
    intro data hd
    simp only [BenderCC.Enable, Connection.WriteMultipleRegisters, List.append_cancel_left_eq,
      List.cons.injEq, Call.write.injEq, and_true, true_and] at hd
    simp only [BenderCC.Enable, Connection.WriteMultipleRegisters, hd]

/-- C6, on a device that refuses every call, with 16 A cached. -/
theorem Enable_writes_cache_and_frames_witness :
    (handle 16 1000 false).current < 65536 ∧
    (∃ data, ((handle 16 1000 false).Enable deadDevice true).wb.conn.log
        = (handle 16 1000 false).conn.log ++ [Call.write (handle 16 1000 false).regCurr 1 data] ∧
      data.length = 2 ∧ BigEndian.Uint16 data = some (handle 16 1000 false).current) :=
  ⟨by decide, (Enable_writes_cache_and_frames deadDevice (handle 16 1000 false) (by decide)).2.1⟩

/-- C7: when the register write fails, `MaxCurrent` and `maxCurrentMillis`
return the transport's error and keep the cached current; a method changes the
cached current only if it is a current-setting method whose single call was a
write that succeeded; and no method, nor any sequence of methods, changes the
active register. -/
theorem setCurrent_atomic (T : Transport σ ε) (wb : BenderCC σ) :
    (∀ (amps : Int) (e : ε), 6 ≤ amps →
      (∀ data, (T.WriteMultipleRegisters wb.conn.dev bendRegHemsCurrentLimit 1 data).1.2
        = some e) →
      (wb.MaxCurrent T amps).err = some (Error.transport e) ∧
      (wb.MaxCurrent T amps).wb.current = wb.current) ∧
    (∀ (amps : ℚ) (e : ε), 6 ≤ amps →
      (∀ data, (T.WriteMultipleRegisters wb.conn.dev bendRegHemsCurrentLimit10 1 data).1.2
        = some e) →
      (wb.maxCurrentMillis T amps).err = some (Error.transport e) ∧
      (wb.maxCurrentMillis T amps).wb.current = wb.current) ∧
    (∀ (m : Method) (r : Option (Error ε) × BenderCC σ), call T wb m = some r →
      r.2.regCurr = wb.regCurr ∧
      (r.2.current ≠ wb.current →
        m.setsCurrent = true ∧ r.1 = none ∧
        ∃ addr data, r.2.conn.log = wb.conn.log ++ [Call.write addr 1 data] ∧
          (addr = 1000 ∨ addr = 1001) ∧
          (T.WriteMultipleRegisters wb.conn.dev addr 1 data).1.2 = none)) ∧
    (∀ (ms : List Method) (wb1 : BenderCC σ), callAll T wb ms = some wb1 →
      wb1.regCurr = wb.regCurr) := by
  refine ⟨?_, ?_, ?_, ?_⟩
  · intro amps e h6 hw
    have hlt : ¬ amps < 6 := by omega
    simp [BenderCC.MaxCurrent, hlt, Connection.WriteMultipleRegisters, hw]
  · intro amps e h6 hw
    have hlt : ¬ amps < 6 := not_lt.mpr h6
    simp [BenderCC.maxCurrentMillis, hlt, Connection.WriteMultipleRegisters, hw]
  · intro m r h
    refine ⟨(call_regCurr T wb m r h).1, ?_⟩
    intro hc
    by_cases hm : m.setsCurrent = false
    · have hf := call_fields T wb m r hm h
      simp only [BenderCC.fields, Prod.mk.injEq] at hf
      exact absurd hf.1 hc
    · cases m <;> simp [Method.setsCurrent] at hm
      · simp only [call, Option.some.injEq] at h
        subst h
        obtain ⟨h1, data, h2, h3⟩ := MaxCurrent_current_changed T wb _ hc
        exact ⟨rfl, h1, bendRegHemsCurrentLimit, data, h2, Or.inl rfl, h3⟩
      · simp only [call, Option.some.injEq] at h
        subst h
        obtain ⟨h1, data, h2, h3⟩ := maxCurrentMillis_current_changed T wb _ hc
        exact ⟨rfl, h1, bendRegHemsCurrentLimit10, data, h2, Or.inr rfl, h3⟩
  · intro ms wb1 h
    exact (callAll_regCurr T ms wb wb1 h).1

/-- C7, at 10 A on a device that refuses every call. -/
theorem setCurrent_atomic_witness :
    (6 : Int) ≤ 10 ∧
    (∀ data, (deadDevice.WriteMultipleRegisters (handle 16 1000 false).conn.dev
      bendRegHemsCurrentLimit 1 data).1.2 = some ()) ∧
    ((handle 16 1000 false).MaxCurrent deadDevice 10).err = some (Error.transport ()) ∧
    ((handle 16 1000 false).MaxCurrent deadDevice 10).wb.current = (handle 16 1000 false).current :=
  ⟨by decide, fun _ => rfl,
    (setCurrent_atomic deadDevice (handle 16 1000 false)).1 10 () (by decide) (fun _ => rfl)⟩

/-! ### Construction -/

theorem Uint32_of_length (b : List Byte) (h : 4 ≤ b.length) : ∃ v, BigEndian.Uint32 b = some v := by
  match b, h with
  | b0 :: b1 :: b2 :: b3 :: _, _ => exact ⟨_, rfl⟩

theorem Uint16_of_length (b : List Byte) (h : 2 ≤ b.length) : ∃ v, BigEndian.Uint16 b = some v := by
  match b, h with
  | b0 :: b1 :: _, _ => exact ⟨_, rfl⟩

/-- What the metering block of `NewBenderCC` finds, in terms of the three reads
it may issue one after the other. -/
theorem probeMetering_spec (T : Transport σ ε) (wb : BenderCC σ) (m : MeterProbe σ)
    (h : probeMetering T wb = some m) :
    (m.metering = true ↔
      (T.ReadHoldingRegisters wb.conn.dev (meterReg wb.legacy) 2).1.2 = none ∧
      ∃ v, BigEndian.Uint32 (T.ReadHoldingRegisters wb.conn.dev (meterReg wb.legacy) 2).1.1 = some v ∧
        v ≠ 4294967295) ∧
    (m.voltages = true ↔ m.metering = true ∧
      (T.ReadHoldingRegisters (T.ReadHoldingRegisters wb.conn.dev (meterReg wb.legacy) 2).2
        bendRegVoltages 2).1.2 = none ∧
      ∃ v, BigEndian.Uint32 (T.ReadHoldingRegisters
          (T.ReadHoldingRegisters wb.conn.dev (meterReg wb.legacy) 2).2
          bendRegVoltages 2).1.1 = some v ∧ v ≠ 0) ∧
    (m.soc = true ↔ m.metering = true ∧ wb.legacy = false ∧
      (T.ReadHoldingRegisters (T.ReadHoldingRegisters
          (T.ReadHoldingRegisters wb.conn.dev (meterReg wb.legacy) 2).2 bendRegVoltages 2).2
        bendRegEVBatteryState 1).1.2 = none) ∧
    m.wb.fields = wb.fields ∧
    ∃ rest, m.wb.conn.log = wb.conn.log ++ Call.read (meterReg wb.legacy) 2 :: rest := by
  unfold probeMetering at h
  simp only [Connection.ReadHoldingRegisters] at h
  generalize T.ReadHoldingRegisters wb.conn.dev (meterReg wb.legacy) 2 = rM at h ⊢
  generalize hV : T.ReadHoldingRegisters rM.2 bendRegVoltages 2 = rV at h ⊢
  generalize hS : T.ReadHoldingRegisters rV.2 bendRegEVBatteryState 1 = rS at h ⊢
  obtain ⟨⟨bM, eM⟩, sM⟩ := rM
  obtain ⟨⟨bV, eV⟩, sV⟩ := rV
  obtain ⟨⟨bS, eS⟩, sS⟩ := rS
  simp only [meterPresent, ocppMeterPresent] at h
  cases eM with
  | some e =>
    simp only [Option.some.injEq] at h
    subst h
    simp [BenderCC.fields]
  | none =>
    cases hu : BigEndian.Uint32 bM with
    | none => simp [hu] at h
    | some v =>
      simp only [hu] at h
      by_cases hv : v = MaxUint32
      · simp only [hv, ne_eq, not_true_eq_false, decide_False, Option.some.injEq] at h
        subst h
        simp [BenderCC.fields, MaxUint32] at hv ⊢
        exact hv
      · have hv1 : v ≠ 4294967295 := hv
        simp only [hv, ne_eq, not_false_eq_true, decide_True] at h
        cases eV with
        | some e =>
          cases hl : wb.legacy <;> simp only [hl, Bool.not_false, Bool.not_true, if_true,
            Bool.false_eq_true, if_false, Option.some.injEq] at h <;> subst h <;>
            simp [BenderCC.fields, hv1, hl]
        | none =>
          cases hw : BigEndian.Uint32 bV with
          | none => simp [hw] at h
          | some w =>
            simp only [hw] at h
            cases hl : wb.legacy <;> simp only [hl, Bool.not_false, Bool.not_true, if_true,
              Bool.false_eq_true, if_false, Option.some.injEq] at h <;> subst h <;>
              simp [BenderCC.fields, hv1, hl, Nat.pos_iff_ne_zero]

theorem probeMetering_fail (T : Transport σ ε) (wb : BenderCC σ)
    (h : (T.ReadHoldingRegisters wb.conn.dev (meterReg wb.legacy) 2).1.2 ≠ none) :
    ∃ wb1, probeMetering T wb = some ⟨false, false, false, wb1⟩ ∧ wb1.fields = wb.fields := by
  obtain ⟨e, he⟩ := Option.ne_none_iff_exists'.mp h
  refine ⟨{ wb with conn := (wb.conn.ReadHoldingRegisters T (meterReg wb.legacy) 2).2 }, ?_, rfl⟩
  simp only [probeMetering, Connection.ReadHoldingRegisters, meterPresent, he]

theorem probeMillis_fail (T : Transport σ ε) (wb : BenderCC σ)
    (h : (T.ReadHoldingRegisters wb.conn.dev bendRegHemsCurrentLimit10 1).1.2 ≠ none) :
    (probeMillis T wb).1 = false ∧ (probeMillis T wb).2.fields = wb.fields := by
  obtain ⟨e, he⟩ := Option.ne_none_iff_exists'.mp h
  simp [probeMillis, Connection.ReadHoldingRegisters, he, BenderCC.fields]

theorem probePower_fields (T : Transport σ ε) (wb : BenderCC σ) :
    (probePower T wb).2.fields = wb.fields := rfl

theorem probePower_fail (T : Transport σ ε) (wb : BenderCC σ)
    (h : (T.ReadHoldingRegisters wb.conn.dev bendRegHemsPowerLimit 1).1.2 ≠ none) :
    (probePower T wb).1 = false := by
  obtain ⟨e, he⟩ := Option.ne_none_iff_exists'.mp h
  simp [probePower, Connection.ReadHoldingRegisters, he]

theorem identify_fail (T : Transport σ ε) (wb : BenderCC σ)
    (h740 : ∀ s, (T.ReadHoldingRegisters s bendRegSmartVehicleDetected 1).1.2 ≠ none)
    (h720 : ∀ s, (T.ReadHoldingRegisters s bendRegUserID 10).1.2 ≠ none) :
    ∃ r, wb.identify T = some r ∧ r.err.isNone = false := by
  obtain ⟨e1, he1⟩ := Option.ne_none_iff_exists'.mp (h740 wb.conn.dev)
  obtain ⟨e2, he2⟩ := Option.ne_none_iff_exists'.mp (h720 wb.conn.dev)
  cases hl : wb.legacy
  · refine ⟨⟨bytesAsString (T.ReadHoldingRegisters wb.conn.dev bendRegSmartVehicleDetected 1).1.1,
      some (.transport e1),
      { wb with conn := (wb.conn.ReadHoldingRegisters T bendRegSmartVehicleDetected 1).2 }⟩, ?_, rfl⟩
    simp [BenderCC.identify, hl, Connection.ReadHoldingRegisters, he1, liftErr]
  · refine ⟨⟨[], some (.transport e2),
      { wb with conn := (wb.conn.ReadHoldingRegisters T bendRegUserID 10).2 }⟩, ?_, rfl⟩
    simp [BenderCC.identify, hl, Connection.ReadHoldingRegisters, he2]

/-- C8: on a transport where the metering, tenths current-limit, power-limit
and identification reads fail, `NewBenderCC` returns a handle (on which
`Status`, `Enabled`, `Enable` and `MaxCurrent` are defined) with none of the nine
optional facets and with the whole-amp register 1000 as the active register. -/
theorem NewBenderCC_all_probes_fail (T : Transport σ ε) (dev : σ)
    (h200 : ∀ s, (T.ReadHoldingRegisters s bendRegPhaseEnergy 2).1.2 ≠ none)
    (h220 : ∀ s, (T.ReadHoldingRegisters s bendRegActivePower 2).1.2 ≠ none)
    (h1001 : ∀ s, (T.ReadHoldingRegisters s bendRegHemsCurrentLimit10 1).1.2 ≠ none)
    (h1002 : ∀ s, (T.ReadHoldingRegisters s bendRegHemsPowerLimit 1).1.2 ≠ none)
    (h740 : ∀ s, (T.ReadHoldingRegisters s bendRegSmartVehicleDetected 1).1.2 ≠ none)
    (h720 : ∀ s, (T.ReadHoldingRegisters s bendRegUserID 10).1.2 ≠ none) :
    ∃ c, NewBenderCC T (.ok dev) true = some (some c, none) ∧
      c.currentPower = false ∧ c.currents = false ∧ c.totalEnergy = false ∧
      c.voltages = false ∧ c.soc = false ∧ c.maxCurrentMillis = false ∧
      c.phases1p3p = false ∧ c.getPhases = false ∧ c.identify = false ∧
      c.wb.regCurr = 1000 := by
  have hM : (T.ReadHoldingRegisters (initHandle T dev).conn.dev
      (meterReg (initHandle T dev).legacy) 2).1.2 ≠ none := by
    cases hl : (initHandle T dev).legacy
    · exact h220 _
    · exact h200 _
  obtain ⟨wb1, hp, hf1⟩ := probeMetering_fail T (initHandle T dev) hM
  obtain ⟨hm1, hf2⟩ := probeMillis_fail T wb1 (h1001 _)
  have hp1 := probePower_fail T (probeMillis T wb1).2 (h1002 _)
  obtain ⟨r, hr, hre⟩ := identify_fail T (probePower T (probeMillis T wb1).2).2 h740 h720
  have hf3 := identify_fields T _ r hr
  have hN : NewBenderCC T (.ok dev) true = some (some
      { wb := r.wb
        currentPower := false
        currents := false
        voltages := false
        totalEnergy := false
        soc := false
        identify := r.err.isNone
        maxCurrentMillis := (probeMillis T wb1).1
        phases1p3p := (probePower T (probeMillis T wb1).2).1
        getPhases := (probePower T (probeMillis T wb1).2).1 }, none) := by
    simp only [NewBenderCC, Bool.not_true, Bool.false_eq_true, if_false, hp, hr]
  refine ⟨_, hN, ?_⟩
  simp only [hm1, hp1, hre, true_and]
  have hfs : r.wb.fields = (initHandle T dev).fields := by
    rw [hf3, probePower_fields, hf2, hf1]
  simp only [BenderCC.fields, Prod.mk.injEq] at hfs
  rw [hfs.2.1]
  rfl

/-- C8, on the device that refuses every call. -/
theorem NewBenderCC_all_probes_fail_witness :
    (∀ s, (deadDevice.ReadHoldingRegisters s bendRegPhaseEnergy 2).1.2 ≠ none) ∧
    ∃ c, NewBenderCC deadDevice (.ok ()) true = some (some c, none) ∧
      c.currentPower = false ∧ c.currents = false ∧ c.totalEnergy = false ∧
      c.voltages = false ∧ c.soc = false ∧ c.maxCurrentMillis = false ∧
      c.phases1p3p = false ∧ c.getPhases = false ∧ c.identify = false ∧
      c.wb.regCurr = 1000 :=
  ⟨fun _ => by simp [deadDevice],
    NewBenderCC_all_probes_fail deadDevice () (fun _ => by simp [deadDevice])
      (fun _ => by simp [deadDevice]) (fun _ => by simp [deadDevice])
      (fun _ => by simp [deadDevice]) (fun _ => by simp [deadDevice])
      (fun _ => by simp [deadDevice])⟩

theorem identify_log (T : Transport σ ε) (wb : BenderCC σ) (r : Ret σ ε GoString)
    (h : wb.identify T = some r) : ∃ rest, r.wb.conn.log = wb.conn.log ++ rest := by
  unfold BenderCC.identify at h
  simp only [Connection.ReadHoldingRegisters] at h
  repeat' split at h
  all_goals first
    | (cases h; (try simp only [List.append_assoc]); exact ⟨_, rfl⟩)
    | cases h

theorem identify_returns (T : Transport σ ε) (hwf : T.WellFormed) (wb : BenderCC σ) :
    ∃ r, wb.identify T = some r := by
  cases hi : wb.identify T with
  | some r => exact ⟨r, rfl⟩
  | none =>
    exfalso
    unfold BenderCC.identify at hi
    simp only [Connection.ReadHoldingRegisters] at hi
    repeat' split at hi
    all_goals try cases hi
    rename_i hok _ hdec
    have hlen := hwf _ _ _ hok
    obtain ⟨v, hv⟩ := Uint16_of_length _ hlen.ge
    rw [hv] at hdec
    cases hdec

theorem probeMetering_returns (T : Transport σ ε) (hwf : T.WellFormed) (wb : BenderCC σ) :
    ∃ m, probeMetering T wb = some m := by
  cases hi : probeMetering T wb with
  | some r => exact ⟨r, rfl⟩
  | none =>
    exfalso
    unfold probeMetering at hi
    simp only [Connection.ReadHoldingRegisters, meterPresent, ocppMeterPresent] at hi
    repeat' split at hi
    all_goals try cases hi
    all_goals
      rename_i hdec
      repeat' split at hdec
      all_goals try cases hdec
      rename_i hok _ hdec
      have hlen := hwf _ _ _ hok
      obtain ⟨v, hv⟩ := Uint32_of_length _ hlen.ge
      rw [hv] at hdec
      cases hdec

/-- Construction returns a handle on every well-formed transport once the
connection is open and the sponsor check has passed. -/
theorem NewBenderCC_returns (T : Transport σ ε) (hwf : T.WellFormed) (dev : σ) :
    ∃ c, NewBenderCC T (.ok dev) true = some (some c, none) := by
  obtain ⟨m, hm⟩ := probeMetering_returns T hwf (initHandle T dev)
  obtain ⟨r, hr⟩ := identify_returns T hwf (probePower T (probeMillis T m.wb).2).2
  simp only [NewBenderCC, Bool.not_true, Bool.false_eq_true, if_false, hm, hr]
  exact ⟨_, rfl⟩

theorem probeMillis_spec (T : Transport σ ε) (wb : BenderCC σ) :
    (probeMillis T wb).2.legacy = wb.legacy ∧
    (probeMillis T wb).2.current = wb.current ∧
    (probeMillis T wb).2.conn.log = wb.conn.log ++ [Call.read bendRegHemsCurrentLimit10 1] := by
  unfold probeMillis
  simp only [Connection.ReadHoldingRegisters]
  split <;> exact ⟨rfl, rfl, rfl⟩

/-- What a handle returned by `NewBenderCC` is made of. -/
theorem NewBenderCC_inv (T : Transport σ ε) (dev : σ) (c : Charger σ)
    (h : NewBenderCC T (.ok dev) true = some (some c, none)) :
    ∃ m, probeMetering T (initHandle T dev) = some m ∧
      c.currentPower = m.metering ∧ c.currents = m.metering ∧ c.totalEnergy = m.metering ∧
      c.voltages = m.voltages ∧ c.soc = m.soc ∧ c.wb.legacy = m.wb.legacy ∧
      ∃ rest, c.wb.conn.log = m.wb.conn.log ++ rest := by
  simp only [NewBenderCC, Bool.not_true, Bool.false_eq_true, if_false] at h
  split at h
  · cases h
  · rename_i m hm
    split at h
    · cases h
    · rename_i r hr
      simp only [Option.some.injEq, Prod.mk.injEq, and_true] at h
      subst h
      refine ⟨m, hm, rfl, rfl, rfl, rfl, rfl, ?_, ?_⟩
      · have hf := identify_fields T _ r hr
        simp only [BenderCC.fields, Prod.mk.injEq] at hf
        rw [hf.2.2]
        exact (probeMillis_spec T m.wb).1
      · obtain ⟨rest, hrest⟩ := identify_log T _ r hr
        refine ⟨Call.read bendRegHemsCurrentLimit10 1 :: Call.read bendRegHemsPowerLimit 1 :: rest,
          ?_⟩
        rw [hrest]
        simp only [probePower, Connection.ReadHoldingRegisters, (probeMillis_spec T m.wb).2.2,
          List.append_assoc, List.cons_append, List.nil_append]

theorem initHandle_spec (T : Transport σ ε) (dev : σ) :
    (initHandle T dev).conn.dev = (T.ReadHoldingRegisters dev bendRegChargePointModel 10).2 ∧
    (initHandle T dev).legacy = (T.ReadHoldingRegisters dev bendRegChargePointModel 10).1.2.isSome ∧
    (initHandle T dev).conn.log = [Call.read bendRegChargePointModel 10] :=
  ⟨rfl, rfl, rfl⟩

/-- C9: the metering probe of `NewBenderCC`.  With `r0`, `rM`, `rV`, `rS` the
answers of the transport to the reads of the model register, of the metering
register, of register 222 and of register 730, one after the other: the
handle is legacy iff the model read failed; the second call is a 2-register
read at 220 (current) or 200 (legacy); metering (power, currents and energy
together) is there iff that read succeeded with a value other than
0xFFFFFFFF; voltages iff metering and the read at 222 succeeded with a nonzero
value; soc iff metering, not legacy and the read at 730 succeeded.  On a
well-formed transport the construction returns such a handle. -/
theorem metering_probe_rules (T : Transport σ ε) (dev : σ) :
    (T.WellFormed → ∃ c, NewBenderCC T (.ok dev) true = some (some c, none)) ∧
    ∀ (c : Charger σ) (r0 rM rV rS : (List Byte × Option ε) × σ),
      NewBenderCC T (.ok dev) true = some (some c, none) →
      T.ReadHoldingRegisters dev 142 10 = r0 →
      T.ReadHoldingRegisters r0.2 (if r0.1.2.isNone then 220 else 200) 2 = rM →
      T.ReadHoldingRegisters rM.2 222 2 = rV →
      T.ReadHoldingRegisters rV.2 730 1 = rS →
      (c.wb.legacy = true ↔ r0.1.2 ≠ none) ∧
      (∃ rest, c.wb.conn.log
        = Call.read 142 10 :: Call.read (if c.wb.legacy then 200 else 220) 2 :: rest) ∧
      c.currentPower = c.currents ∧ c.totalEnergy = c.currents ∧
      (c.currents = true ↔
        rM.1.2 = none ∧ ∃ v, BigEndian.Uint32 rM.1.1 = some v ∧ v ≠ 4294967295) ∧
      (c.voltages = true ↔
        c.currents = true ∧ rV.1.2 = none ∧ ∃ v, BigEndian.Uint32 rV.1.1 = some v ∧ v ≠ 0) ∧
      (c.soc = true ↔ c.currents = true ∧ c.wb.legacy = false ∧ rS.1.2 = none) ∧
      (c.voltages = true ∨ c.soc = true → c.currents = true) ∧
      (c.soc = true → c.wb.legacy = false) := by
  refine ⟨fun hwf => NewBenderCC_returns T hwf dev, ?_⟩
  intro c r0 rM rV rS hN h0 hM hV hS
  obtain ⟨m, hm, hcp, hcu, hte, hvo, hso, hleg, rest, hlog⟩ := NewBenderCC_inv T dev c hN
  obtain ⟨hmet, hvolt, hsoc, hfields, rest1, hlog1⟩ := probeMetering_spec T _ m hm
  obtain ⟨hd, hl, hlg⟩ := initHandle_spec T dev
  simp only [BenderCC.fields, Prod.mk.injEq] at hfields
  have hl2 : c.wb.legacy = r0.1.2.isSome := by
    rw [hleg, hfields.2.2, hl, ← h0]
    rfl
  have hreg : meterReg (initHandle T dev).legacy = (if r0.1.2.isNone then 220 else 200) := by
    rw [hl, ← h0]
    change meterReg (T.ReadHoldingRegisters dev 142 10).1.2.isSome = _
    cases (T.ReadHoldingRegisters dev 142 10).1.2 <;> rfl
  have hreg2 : meterReg (initHandle T dev).legacy = (if c.wb.legacy then 200 else 220) := by
    rw [hleg, hfields.2.2]
    cases (initHandle T dev).legacy <;> rfl
  have hrM : T.ReadHoldingRegisters (initHandle T dev).conn.dev
      (meterReg (initHandle T dev).legacy) 2 = rM := by
    rw [hreg, hd, ← hM, ← h0]
    rfl
  rw [hrM] at hmet hvolt hsoc
  have hrV : T.ReadHoldingRegisters rM.2 bendRegVoltages 2 = rV := hV
  rw [hrV] at hvolt hsoc
  have hrS : T.ReadHoldingRegisters rV.2 bendRegEVBatteryState 1 = rS := hS
  rw [hrS] at hsoc
  rw [hcp, hcu, hte, hvo, hso]
  have hleg2 : c.wb.legacy = (initHandle T dev).legacy := by rw [hleg, hfields.2.2]
  rw [← hleg2] at hsoc
  refine ⟨?_, ?_, rfl, rfl, hmet, hvolt, hsoc, ?_, ?_⟩
  · rw [hl2]
    cases r0.1.2 <;> simp
  · refine ⟨rest1 ++ rest, ?_⟩
    rw [hlog, hlog1, hlg, hreg2]
    simp [bendRegChargePointModel]
  · rintro (hv | hs)
    · exact (hvolt.mp hv).1
    · exact (hsoc.mp hs).1
  · intro hs
    exact (hsoc.mp hs).2.1

/-- C9, on a device where every read succeeds with zero registers: metering
and soc are there, voltages are not. -/
theorem metering_probe_rules_witness :
    zeroDevice.WellFormed ∧
    (∃ c, NewBenderCC zeroDevice (.ok ()) true = some (some c, none)) ∧
    NewBenderCC zeroDevice (.ok ()) true = some (some zeroCharger, none) ∧
    (zeroCharger.currents = true ↔
      (none : Option Unit) = none ∧
      ∃ v, BigEndian.Uint32 [0, 0, 0, 0] = some v ∧ v ≠ 4294967295) ∧
    (zeroCharger.voltages = true ↔
      zeroCharger.currents = true ∧ (none : Option Unit) = none ∧
      ∃ v, BigEndian.Uint32 [0, 0, 0, 0] = some v ∧ v ≠ 0) :=
  ⟨fun _ _ count _ => by simp [zeroDevice],
    (metering_probe_rules zeroDevice ()).1 (fun _ _ count _ => by simp [zeroDevice]),
    rfl,
    ((metering_probe_rules zeroDevice ()).2 zeroCharger
      (([0, 0, 0, 0, 0, 0, 0, 0, 0, 0, 0, 0, 0, 0, 0, 0, 0, 0, 0, 0], none), ())
      (([0, 0, 0, 0], none), ()) (([0, 0, 0, 0], none), ()) (([0, 0], none), ())
      rfl rfl rfl rfl rfl).2.2.2.2.1,
    ((metering_probe_rules zeroDevice ()).2 zeroCharger
      (([0, 0, 0, 0, 0, 0, 0, 0, 0, 0, 0, 0, 0, 0, 0, 0, 0, 0, 0, 0], none), ())
      (([0, 0, 0, 0], none), ()) (([0, 0, 0, 0], none), ()) (([0, 0], none), ())
      rfl rfl rfl rfl rfl).2.2.2.2.2.1⟩

/-! ### Phase values -/

theorem phaseSlot_zero (a0 a1 a2 a3 : Byte) (t : List Byte) (d : ℚ) :
    phaseSlot (a0 :: a1 :: a2 :: a3 :: t) d 0
      = some (if a0.val * 16777216 + a1.val * 65536 + a2.val * 256 + a3.val = 4294967295 then 0
          else ((a0.val * 16777216 + a1.val * 65536 + a2.val * 256 + a3.val : Nat) : ℚ) / d) := by
  simp only [phaseSlot, sliceFrom, Nat.mul_zero, Nat.zero_le, if_true, List.drop_zero,
    BigEndian.Uint32, MaxUint32]
  split_ifs <;> simp

theorem phaseSlot_one (x0 x1 x2 x3 a0 a1 a2 a3 : Byte) (t : List Byte) (d : ℚ) :
    phaseSlot (x0 :: x1 :: x2 :: x3 :: a0 :: a1 :: a2 :: a3 :: t) d 1
      = some (if a0.val * 16777216 + a1.val * 65536 + a2.val * 256 + a3.val = 4294967295 then 0
          else ((a0.val * 16777216 + a1.val * 65536 + a2.val * 256 + a3.val : Nat) : ℚ) / d) := by
  have hle : 4 * 1 ≤ (x0 :: x1 :: x2 :: x3 :: a0 :: a1 :: a2 :: a3 :: t).length := by
    simp only [List.length_cons]
    omega
  simp only [phaseSlot, sliceFrom, hle, if_true, Nat.mul_one, List.drop_succ_cons, List.drop_zero,
    BigEndian.Uint32, MaxUint32]
  split_ifs <;> simp

theorem phaseSlot_two (x0 x1 x2 x3 x4 x5 x6 x7 a0 a1 a2 a3 : Byte) (t : List Byte) (d : ℚ) :
    phaseSlot (x0 :: x1 :: x2 :: x3 :: x4 :: x5 :: x6 :: x7 :: a0 :: a1 :: a2 :: a3 :: t) d 2
      = some (if a0.val * 16777216 + a1.val * 65536 + a2.val * 256 + a3.val = 4294967295 then 0
          else ((a0.val * 16777216 + a1.val * 65536 + a2.val * 256 + a3.val : Nat) : ℚ) / d) := by
  have hle : 4 * 2 ≤
      (x0 :: x1 :: x2 :: x3 :: x4 :: x5 :: x6 :: x7 :: a0 :: a1 :: a2 :: a3 :: t).length := by
    simp only [List.length_cons]
    omega
  simp only [phaseSlot, sliceFrom, hle, if_true, Nat.reduceMul, List.drop_succ_cons,
    List.drop_zero, BigEndian.Uint32, MaxUint32]
  split_ifs <;> simp

/-- The three values of `getPhaseValues` on a 12-byte response. -/
theorem getPhaseValues_decode (T : Transport σ ε) (wb : BenderCC σ) (reg : Nat) (d : ℚ)
    (a0 a1 a2 a3 a4 a5 a6 a7 a8 a9 a10 a11 : Byte) (dev : σ) (s0 s1 s2 : Nat)
    (hr : T.ReadHoldingRegisters wb.conn.dev reg 6
      = (([a0, a1, a2, a3, a4, a5, a6, a7, a8, a9, a10, a11], none), dev))
    (h0 : s0 = a0.val * 16777216 + a1.val * 65536 + a2.val * 256 + a3.val)
    (h1 : s1 = a4.val * 16777216 + a5.val * 65536 + a6.val * 256 + a7.val)
    (h2 : s2 = a8.val * 16777216 + a9.val * 65536 + a10.val * 256 + a11.val) :
    (wb.getPhaseValues T reg d).map (fun r => (r.val, r.err))
      = some ((if s0 = 4294967295 then 0 else (s0 : ℚ) / d,
               if s1 = 4294967295 then 0 else (s1 : ℚ) / d,
               if s2 = 4294967295 then 0 else (s2 : ℚ) / d), none) := by
  subst h0 h1 h2
  simp only [BenderCC.getPhaseValues, Connection.ReadHoldingRegisters, hr, phaseSlot_zero,
    phaseSlot_one, phaseSlot_two, Option.map_some']

theorem getPhaseValues_error (T : Transport σ ε) (wb : BenderCC σ) (reg : Nat) (d : ℚ)
    (b : List Byte) (e : ε) (dev : σ)
    (hr : T.ReadHoldingRegisters wb.conn.dev reg 6 = ((b, some e), dev)) :
    (wb.getPhaseValues T reg d).map (fun r => (r.val, r.err))
      = some ((0, 0, 0), some (Error.transport e)) := by
  simp only [BenderCC.getPhaseValues, Connection.ReadHoldingRegisters, hr, Option.map_some']

theorem length_twelve (b : List Byte) (h : b.length = 12) :
    ∃ a0 a1 a2 a3 a4 a5 a6 a7 a8 a9 a10 a11,
      b = [a0, a1, a2, a3, a4, a5, a6, a7, a8, a9, a10, a11] := by
  match b, h with
  | [a0, a1, a2, a3, a4, a5, a6, a7, a8, a9, a10, a11], _ =>
    exact ⟨a0, a1, a2, a3, a4, a5, a6, a7, a8, a9, a10, a11, rfl⟩

/-- C10: on a 12-byte response `currents` (register 212, divisor 1000) and
`voltages` (register 222, divisor 1) return, slot by slot, 0 for the value
0xFFFFFFFF and the big-endian slot value over the divisor otherwise; a
transport error gives (0, 0, 0) with that error; and on any 12-byte response
the decoding does not panic. -/
theorem currents_voltages_decode (T : Transport σ ε) (wb : BenderCC σ) :
    (∀ (a0 a1 a2 a3 a4 a5 a6 a7 a8 a9 a10 a11 : Byte) (dev : σ) (s0 s1 s2 : Nat),
      T.ReadHoldingRegisters wb.conn.dev 212 6
        = (([a0, a1, a2, a3, a4, a5, a6, a7, a8, a9, a10, a11], none), dev) →
      s0 = a0.val * 16777216 + a1.val * 65536 + a2.val * 256 + a3.val →
      s1 = a4.val * 16777216 + a5.val * 65536 + a6.val * 256 + a7.val →
      s2 = a8.val * 16777216 + a9.val * 65536 + a10.val * 256 + a11.val →
      (wb.currents T).map (fun r => (r.val, r.err))
        = some ((if s0 = 4294967295 then 0 else (s0 : ℚ) / 1000,
                 if s1 = 4294967295 then 0 else (s1 : ℚ) / 1000,
                 if s2 = 4294967295 then 0 else (s2 : ℚ) / 1000), none)) ∧
    (∀ (a0 a1 a2 a3 a4 a5 a6 a7 a8 a9 a10 a11 : Byte) (dev : σ) (s0 s1 s2 : Nat),
      T.ReadHoldingRegisters wb.conn.dev 222 6
        = (([a0, a1, a2, a3, a4, a5, a6, a7, a8, a9, a10, a11], none), dev) →
      s0 = a0.val * 16777216 + a1.val * 65536 + a2.val * 256 + a3.val →
      s1 = a4.val * 16777216 + a5.val * 65536 + a6.val * 256 + a7.val →
      s2 = a8.val * 16777216 + a9.val * 65536 + a10.val * 256 + a11.val →
      (wb.voltages T).map (fun r => (r.val, r.err))
        = some ((if s0 = 4294967295 then 0 else (s0 : ℚ) / 1,
                 if s1 = 4294967295 then 0 else (s1 : ℚ) / 1,
                 if s2 = 4294967295 then 0 else (s2 : ℚ) / 1), none)) ∧
    (∀ (b : List Byte) (e : ε) (dev : σ),
      T.ReadHoldingRegisters wb.conn.dev 212 6 = ((b, some e), dev) →
      (wb.currents T).map (fun r => (r.val, r.err))
        = some ((0, 0, 0), some (Error.transport e))) ∧
    (∀ (b : List Byte) (e : ε) (dev : σ),
      T.ReadHoldingRegisters wb.conn.dev 222 6 = ((b, some e), dev) →
      (wb.voltages T).map (fun r => (r.val, r.err))
        = some ((0, 0, 0), some (Error.transport e))) ∧
    (∀ (reg : Nat) (d : ℚ) (b : List Byte) (dev : σ),
      T.ReadHoldingRegisters wb.conn.dev reg 6 = ((b, none), dev) → b.length = 12 →
      (wb.getPhaseValues T reg d).isSome = true) := by
  refine ⟨?_, ?_, ?_, ?_, ?_⟩
  · intro a0 a1 a2 a3 a4 a5 a6 a7 a8 a9 a10 a11 dev s0 s1 s2 hr h0 h1 h2
    exact getPhaseValues_decode T wb bendRegCurrents 1000 a0 a1 a2 a3 a4 a5 a6 a7 a8 a9 a10 a11
      dev s0 s1 s2 hr h0 h1 h2
  · intro a0 a1 a2 a3 a4 a5 a6 a7 a8 a9 a10 a11 dev s0 s1 s2 hr h0 h1 h2
    exact getPhaseValues_decode T wb bendRegVoltages 1 a0 a1 a2 a3 a4 a5 a6 a7 a8 a9 a10 a11
      dev s0 s1 s2 hr h0 h1 h2
  · intro b e dev hr
    exact getPhaseValues_error T wb bendRegCurrents 1000 b e dev hr
  · intro b e dev hr
    exact getPhaseValues_error T wb bendRegVoltages 1 b e dev hr
  · intro reg d b dev hr hlen
    obtain ⟨a0, a1, a2, a3, a4, a5, a6, a7, a8, a9, a10, a11, rfl⟩ := length_twelve b hlen
    have h := getPhaseValues_decode T wb reg d a0 a1 a2 a3 a4 a5 a6 a7 a8 a9 a10 a11 dev
      _ _ _ hr rfl rfl rfl
    cases hg : wb.getPhaseValues T reg d with
    | none => rw [hg] at h; cases h
    | some r => rfl

/-- C10, on a response holding 1000, the all-ones value and 2000. -/
theorem currents_voltages_decode_witness :
    (constDevice [0, 0, 3, 232, 255, 255, 255, 255, 0, 0, 7, 208]).ReadHoldingRegisters
        (handle 6 1000 false).conn.dev 212 6
      = (([0, 0, 3, 232, 255, 255, 255, 255, 0, 0, 7, 208], none), ()) ∧
    ((handle 6 1000 false).currents
        (constDevice [0, 0, 3, 232, 255, 255, 255, 255, 0, 0, 7, 208])).map
        (fun r => (r.val, r.err))
      = some ((if (1000 : Nat) = 4294967295 then 0 else ((1000 : Nat) : ℚ) / 1000,
               if (4294967295 : Nat) = 4294967295 then 0 else ((4294967295 : Nat) : ℚ) / 1000,
               if (2000 : Nat) = 4294967295 then 0 else ((2000 : Nat) : ℚ) / 1000), none) :=
  ⟨rfl,
    (currents_voltages_decode (constDevice [0, 0, 3, 232, 255, 255, 255, 255, 0, 0, 7, 208])
      (handle 6 1000 false)).1 0 0 3 232 255 255 255 255 0 0 7 208 () 1000 4294967295 2000
      rfl (by decide) (by decide) (by decide)⟩

/-! ### Battery state and phases -/

/-- C13: `soc`.  With the smart-vehicle flag (740) reading 0 it fails with
`ErrNotAvailable` after that single read (730 is not read); with the flag
reading 1 and register 730 reading `v` it returns `v` for `v ≤ 100` and fails
with `ErrNotAvailable` for `v > 100`; a transport error on either read is
returned as it is. -/
theorem soc_rules (T : Transport σ ε) (wb : BenderCC σ) :
    (∀ (b : List Byte) (e : ε) (dev : σ),
      T.ReadHoldingRegisters wb.conn.dev 740 1 = ((b, some e), dev) →
      (wb.soc T).map (fun r => (r.val, r.err)) = some (0, some (Error.transport e))) ∧
    (∀ (b : List Byte) (dev : σ),
      T.ReadHoldingRegisters wb.conn.dev 740 1 = ((b, none), dev) →
      BigEndian.Uint16 b = some 0 →
      (wb.soc T).map (fun r => (r.val, r.err, r.wb.conn.log))
        = some (0, some Error.ErrNotAvailable, wb.conn.log ++ [Call.read 740 1])) ∧
    (∀ (b b2 : List Byte) (dev dev2 : σ) (v : Nat),
      T.ReadHoldingRegisters wb.conn.dev 740 1 = ((b, none), dev) →
      BigEndian.Uint16 b = some 1 →
      T.ReadHoldingRegisters dev 730 1 = ((b2, none), dev2) →
      BigEndian.Uint16 b2 = some v →
      (v ≤ 100 → (wb.soc T).map (fun r => (r.val, r.err)) = some ((v : ℚ), none)) ∧
      (100 < v →
        (wb.soc T).map (fun r => (r.val, r.err)) = some (0, some Error.ErrNotAvailable))) ∧
    (∀ (b b2 : List Byte) (dev dev2 : σ) (e : ε),
      T.ReadHoldingRegisters wb.conn.dev 740 1 = ((b, none), dev) →
      BigEndian.Uint16 b = some 1 →
      T.ReadHoldingRegisters dev 730 1 = ((b2, some e), dev2) →
      (wb.soc T).map (fun r => (r.val, r.err)) = some (0, some (Error.transport e))) := by
  refine ⟨?_, ?_, ?_, ?_⟩
  · intro b e dev hr
    have hr1 : T.ReadHoldingRegisters wb.conn.dev bendRegSmartVehicleDetected 1
        = ((b, some e), dev) := hr
    simp [BenderCC.soc, Connection.ReadHoldingRegisters, hr1]
  · intro b dev hr hf
    have hr1 : T.ReadHoldingRegisters wb.conn.dev bendRegSmartVehicleDetected 1
        = ((b, none), dev) := hr
    simp [BenderCC.soc, Connection.ReadHoldingRegisters, hr1, hf]
    rfl
  · intro b b2 dev dev2 v hr hf hr2 hv
    have hr1 : T.ReadHoldingRegisters wb.conn.dev bendRegSmartVehicleDetected 1
        = ((b, none), dev) := hr
    have hr3 : T.ReadHoldingRegisters dev bendRegEVBatteryState 1 = ((b2, none), dev2) := hr2
    refine ⟨?_, ?_⟩
    · intro hle
      simp [BenderCC.soc, Connection.ReadHoldingRegisters, hr1, hf, hr3, hv, hle]
    · intro hgt
      have hn : ¬ v ≤ 100 := by omega
      simp [BenderCC.soc, Connection.ReadHoldingRegisters, hr1, hf, hr3, hv, hn]
  · intro b b2 dev dev2 e hr hf hr2
    have hr1 : T.ReadHoldingRegisters wb.conn.dev bendRegSmartVehicleDetected 1
        = ((b, none), dev) := hr
    have hr3 : T.ReadHoldingRegisters dev bendRegEVBatteryState 1 = ((b2, some e), dev2) := hr2
    simp [BenderCC.soc, Connection.ReadHoldingRegisters, hr1, hf, hr3]

/-- C13, on a device whose registers all read 0: the flag is clear and `soc`
is not available. -/
theorem soc_rules_witness :
    zeroDevice.ReadHoldingRegisters (handle 6 1000 false).conn.dev 740 1
      = (([0, 0], none), ()) ∧
    BigEndian.Uint16 [0, 0] = some 0 ∧
    ((handle 6 1000 false).soc zeroDevice).map (fun r => (r.val, r.err, r.wb.conn.log))
      = some (0, some Error.ErrNotAvailable,
          (handle 6 1000 false).conn.log ++ [Call.read 740 1]) :=
  ⟨rfl, rfl, (soc_rules zeroDevice (handle 6 1000 false)).2.1 [0, 0] () rfl rfl⟩

/-- C14: `getPhases` returns 1 when the power limit register (1002) reads at
most 3725 and 3 otherwise, so 1 for 3725 and 3 for 0xFFFF; a transport error
gives 0 with that error. -/
theorem getPhases_rules (T : Transport σ ε) (wb : BenderCC σ) :
    (∀ (b : List Byte) (e : ε) (dev : σ),
      T.ReadHoldingRegisters wb.conn.dev 1002 1 = ((b, some e), dev) →
      (wb.getPhases T).map (fun r => (r.val, r.err)) = some (0, some (Error.transport e))) ∧
    (∀ (b : List Byte) (dev : σ) (p : Nat),
      T.ReadHoldingRegisters wb.conn.dev 1002 1 = ((b, none), dev) →
      BigEndian.Uint16 b = some p →
      (p ≤ 3725 → (wb.getPhases T).map (fun r => (r.val, r.err)) = some (1, none)) ∧
      (3725 < p → (wb.getPhases T).map (fun r => (r.val, r.err)) = some (3, none)) ∧
      (p = 3725 → (wb.getPhases T).map (fun r => (r.val, r.err)) = some (1, none)) ∧
      (p = 65535 → (wb.getPhases T).map (fun r => (r.val, r.err)) = some (3, none))) := by
  refine ⟨?_, ?_⟩
  · intro b e dev hr
    have hr1 : T.ReadHoldingRegisters wb.conn.dev bendRegHemsPowerLimit 1
        = ((b, some e), dev) := hr
    simp [BenderCC.getPhases, Connection.ReadHoldingRegisters, hr1]
  · intro b dev p hr hp
    have hr1 : T.ReadHoldingRegisters wb.conn.dev bendRegHemsPowerLimit 1
        = ((b, none), dev) := hr
    have hle : ∀ (_ : p ≤ 3725),
        (wb.getPhases T).map (fun r => (r.val, r.err)) = some (1, none) := by
      intro h
      have h1 : p ≤ powerLimit1p := h
      simp [BenderCC.getPhases, Connection.ReadHoldingRegisters, hr1, hp, h1]
    have hgt : ∀ (_ : 3725 < p),
        (wb.getPhases T).map (fun r => (r.val, r.err)) = some (3, none) := by
      intro h
      have h1 : ¬ p ≤ powerLimit1p := by
        intro h2
        have h3 : p ≤ 3725 := h2
        omega
      simp [BenderCC.getPhases, Connection.ReadHoldingRegisters, hr1, hp, h1]
    refine ⟨hle, hgt, ?_, ?_⟩
    · intro h
      exact hle (by omega)
    · intro h
      exact hgt (by omega)

/-- C14, on a device whose power limit register reads 0xFFFF: three phases. -/
theorem getPhases_rules_witness :
    (constDevice [255, 255]).ReadHoldingRegisters (handle 6 1000 false).conn.dev 1002 1
      = (([255, 255], none), ()) ∧
    BigEndian.Uint16 [255, 255] = some 65535 ∧
    ((handle 6 1000 false).getPhases (constDevice [255, 255])).map (fun r => (r.val, r.err))
      = some (3, none) :=
  ⟨rfl, rfl,
    ((getPhases_rules (constDevice [255, 255]) (handle 6 1000 false)).2
      [255, 255] () 65535 rfl rfl).2.2.2 rfl⟩

/-! ### Identification -/

theorem bytesAsString_zeros (b : List Byte) (h : ∀ x ∈ b, x = 0) : bytesAsString b = [] := by
  unfold bytesAsString
  rw [List.reverse_eq_nil_iff, List.dropWhile_eq_nil_iff]
  intro x hx
  simpa using h x (List.mem_reverse.mp hx)

theorem flag_zero_bytes (b : List Byte) (hlen : b.length = 2) (h0 : BigEndian.Uint16 b = some 0) :
    ∀ x ∈ b, x = 0 := by
  match b, hlen with
  | [b0, b1], _ =>
    simp only [BigEndian.Uint16, Option.some.injEq] at h0
    have h1 : b0.val = 0 := by omega
    have h2 : b1.val = 0 := by omega
    intro x hx
    simp only [List.mem_cons, List.mem_singleton, List.not_mem_nil, or_false] at hx
    rcases hx with rfl | rfl
    · exact Fin.ext h1
    · exact Fin.ext h2

/-- C12: `identify`.  On a current handle, when the smart-vehicle flag (740)
reads nonzero and the 6 registers at 741 decode to a non-empty string,
that string is returned with no error; when the flag register reads 0 and the
read of the 10 registers at 720 succeeds, the decoded user ID is returned with
no error, the empty string for an all-zero block.  On a legacy handle the only
call is the read of the 10 registers at 720. -/
theorem identify_rules (T : Transport σ ε) (wb : BenderCC σ) :
    (wb.legacy = false →
      ∀ (b b2 : List Byte) (dev dev2 : σ) (f : Nat),
      T.ReadHoldingRegisters wb.conn.dev 740 1 = ((b, none), dev) →
      BigEndian.Uint16 b = some f → f ≠ 0 →
      T.ReadHoldingRegisters dev 741 6 = ((b2, none), dev2) →
      bytesAsString b2 ≠ [] →
      (wb.identify T).map (fun r => (r.val, r.err)) = some (bytesAsString b2, none)) ∧
    (wb.legacy = false →
      ∀ (b b3 : List Byte) (dev dev3 : σ),
      T.ReadHoldingRegisters wb.conn.dev 740 1 = ((b, none), dev) →
      b.length = 2 → BigEndian.Uint16 b = some 0 →
      T.ReadHoldingRegisters dev 720 10 = ((b3, none), dev3) →
      (wb.identify T).map (fun r => (r.val, r.err)) = some (bytesAsString b3, none) ∧
      ((∀ x ∈ b3, x = 0) →
        (wb.identify T).map (fun r => (r.val, r.err)) = some ([], none))) ∧
    (wb.legacy = true →
      (wb.identify T).map (fun r => r.wb.conn.log) = some (wb.conn.log ++ [Call.read 720 10]) ∧
      ∀ (b3 : List Byte) (dev3 : σ),
      T.ReadHoldingRegisters wb.conn.dev 720 10 = ((b3, none), dev3) →
      (wb.identify T).map (fun r => (r.val, r.err)) = some (bytesAsString b3, none)) := by
  refine ⟨?_, ?_, ?_⟩
  · intro hl b b2 dev dev2 f hr hf hne hr2 hid
    have hr1 : T.ReadHoldingRegisters wb.conn.dev bendRegSmartVehicleDetected 1
        = ((b, none), dev) := hr
    have hr3 : T.ReadHoldingRegisters dev bendRegEVCCID 6 = ((b2, none), dev2) := hr2
    simp [BenderCC.identify, hl, Connection.ReadHoldingRegisters, hr1, hf, hne, hr3, hid, liftErr]
  · intro hl b b3 dev dev3 hr hlen hf hr2
    have hr1 : T.ReadHoldingRegisters wb.conn.dev bendRegSmartVehicleDetected 1
        = ((b, none), dev) := hr
    have hr3 : T.ReadHoldingRegisters dev bendRegUserID 10 = ((b3, none), dev3) := hr2
    have hz : bytesAsString b = [] := bytesAsString_zeros b (flag_zero_bytes b hlen hf)
    have hres : (wb.identify T).map (fun r => (r.val, r.err)) = some (bytesAsString b3, none) := by
      simp [BenderCC.identify, hl, Connection.ReadHoldingRegisters, hr1, hf, hr3, hz]
    refine ⟨hres, ?_⟩
    intro hall
    rw [hres, bytesAsString_zeros b3 hall]
  · intro hl
    refine ⟨?_, ?_⟩
    · simp only [BenderCC.identify, hl, Connection.ReadHoldingRegisters, Bool.not_true,
        Bool.false_eq_true, if_false]
      split <;> rfl
    · intro b3 dev3 hr2
      have hr3 : T.ReadHoldingRegisters wb.conn.dev bendRegUserID 10 = ((b3, none), dev3) := hr2
      simp [BenderCC.identify, hl, Connection.ReadHoldingRegisters, hr3]

/-- C12, on a current handle over a device whose registers all read 0: the
flag is clear, the user ID block is all zero and the identifier is empty. -/
theorem identify_rules_witness :
    (handle 6 1000 false).legacy = false ∧
    zeroDevice.ReadHoldingRegisters (handle 6 1000 false).conn.dev 740 1
      = (([0, 0], none), ()) ∧
    ((handle 6 1000 false).identify zeroDevice).map (fun r => (r.val, r.err))
      = some ([], none) :=
  ⟨rfl, rfl,
    ((identify_rules zeroDevice (handle 6 1000 false)).2.1 rfl [0, 0]
      (List.replicate 20 0) () () rfl rfl rfl rfl).2
      (fun _ hx => List.eq_of_mem_replicate hx)⟩

/-! ### Construction: errors and calls issued -/

/-- C15, as stated, fails when the sponsor check fails: the connection is
established (every probe read would succeed), yet `NewBenderCC` returns no
handle and the error `ErrSponsorRequired`. -/
theorem NewBenderCC_sponsor_required :
    NewBenderCC zeroDevice (.ok ()) false = some (none, some Error.ErrSponsorRequired) ∧
    (NewBenderCC zeroDevice (.ok ()) false).map (fun r => (r.1.isSome, r.2.isSome))
      = some (false, true) := by
  refine ⟨by rfl, by rfl⟩

/-- C15, amended: construction fails only when the connection cannot be
established or the sponsor check fails.  Without authorization the result is
`ErrSponsorRequired`; with it, whatever the probe reads answer, a result of
`NewBenderCC` is a handle with no error, and on a transport whose successful
reads carry two bytes per register there is such a result. -/
theorem NewBenderCC_failures (T : Transport σ ε) (dev : σ) :
    NewBenderCC T (.ok dev) false = some (none, some Error.ErrSponsorRequired) ∧
    (∀ (e : ε) (authorized : Bool),
      NewBenderCC T (.error e) authorized = some (none, some (Error.transport e))) ∧
    (∀ (c : Option (Charger σ)) (err : Option (Error ε)),
      NewBenderCC T (.ok dev) true = some (c, err) → err = none ∧ c.isSome = true) ∧
    (T.WellFormed → ∃ c, NewBenderCC T (.ok dev) true = some (some c, none)) := by
  refine ⟨rfl, fun _ _ => rfl, ?_, fun hwf => NewBenderCC_returns T hwf dev⟩
  intro c err h
  simp only [NewBenderCC, Bool.not_true, Bool.false_eq_true, if_false] at h
  split at h
  · cases h
  · split at h
    · cases h
    · simp only [Option.some.injEq, Prod.mk.injEq] at h
      obtain ⟨h1, h2⟩ := h
      subst h1 h2
      exact ⟨rfl, rfl⟩

/-- C15, amended, on a device where every read succeeds with zero registers. -/
theorem NewBenderCC_failures_witness :
    zeroDevice.WellFormed ∧
    ∃ c, NewBenderCC zeroDevice (.ok ()) true = some (some c, none) :=
  ⟨fun _ _ count _ => by simp [zeroDevice],
    (NewBenderCC_failures zeroDevice ()).2.2.2 (fun _ _ count _ => by simp [zeroDevice])⟩

theorem readsOnly_append_read (l : List Call) (addr count : Nat) :
    readsOnly (l ++ [Call.read addr count]) = readsOnly l := by
  simp [readsOnly, Call.isWrite]

theorem probeMetering_readsOnly (T : Transport σ ε) (wb : BenderCC σ) (m : MeterProbe σ)
    (h : probeMetering T wb = some m) (hl : readsOnly wb.conn.log = true) :
    readsOnly m.wb.conn.log = true := by
  unfold probeMetering at h
  simp only [Connection.ReadHoldingRegisters] at h
  repeat' split at h
  all_goals first
    | (cases h; simp only [readsOnly_append_read]; exact hl)
    | cases h

theorem identify_readsOnly (T : Transport σ ε) (wb : BenderCC σ) (r : Ret σ ε GoString)
    (h : wb.identify T = some r) (hl : readsOnly wb.conn.log = true) :
    readsOnly r.wb.conn.log = true := by
  unfold BenderCC.identify at h
  simp only [Connection.ReadHoldingRegisters] at h
  repeat' split at h
  all_goals first
    | (cases h; simp only [readsOnly_append_read]; exact hl)
    | cases h

theorem probeMillis_readsOnly (T : Transport σ ε) (wb : BenderCC σ)
    (hl : readsOnly wb.conn.log = true) : readsOnly (probeMillis T wb).2.conn.log = true := by
  rw [(probeMillis_spec T wb).2.2, readsOnly_append_read]
  exact hl

theorem probePower_readsOnly (T : Transport σ ε) (wb : BenderCC σ)
    (hl : readsOnly wb.conn.log = true) : readsOnly (probePower T wb).2.conn.log = true := by
  simp only [probePower, Connection.ReadHoldingRegisters, readsOnly_append_read]
  exact hl

/-- C16: probing is read-only.  Every call in the log of a handle returned by
`NewBenderCC` (the log starts empty when the connection is opened and covers
the identification probe) is a register read, none a register write; and on
a transport whose successful reads carry two bytes per register the
construction returns such a handle. -/
theorem NewBenderCC_reads_only (T : Transport σ ε) (dev : σ) :
    (∀ c : Charger σ, NewBenderCC T (.ok dev) true = some (some c, none) →
      readsOnly c.wb.conn.log = true ∧
      (∀ x ∈ c.wb.conn.log, x.isWrite = false) ∧
      (∀ addr count data, Call.write addr count data ∉ c.wb.conn.log)) ∧
    (T.WellFormed → ∃ c, NewBenderCC T (.ok dev) true = some (some c, none)) := by
  refine ⟨?_, fun hwf => NewBenderCC_returns T hwf dev⟩
  intro c h
  have hro : readsOnly c.wb.conn.log = true := by
    simp only [NewBenderCC, Bool.not_true, Bool.false_eq_true, if_false] at h
    split at h
    · cases h
    · rename_i m hm
      split at h
      · cases h
      · rename_i r hr
        simp only [Option.some.injEq, Prod.mk.injEq, and_true] at h
        subst h
        have h0 : readsOnly (initHandle T dev).conn.log = true := rfl
        have h1 := probeMetering_readsOnly T _ m hm h0
        have h2 := probeMillis_readsOnly T m.wb h1
        have h3 := probePower_readsOnly T _ h2
        exact identify_readsOnly T _ r hr h3
  have hall : ∀ x ∈ c.wb.conn.log, x.isWrite = false := by
    intro x hx
    have := List.all_eq_true.mp hro x hx
    simpa using this
  refine ⟨hro, hall, ?_⟩
  intro addr count data hmem
  have := hall _ hmem
  simp [Call.isWrite] at this

/-- C16, on a device where every read succeeds with zero registers: the eight
calls of the construction are reads. -/
theorem NewBenderCC_reads_only_witness :
    NewBenderCC zeroDevice (.ok ()) true = some (some zeroCharger, none) ∧
    readsOnly zeroCharger.wb.conn.log = true :=
  ⟨rfl, ((NewBenderCC_reads_only zeroDevice ()).1 zeroCharger rfl).1⟩

/-! ### Rounding to `float64` -/

theorem log2_eq (x : ℚ) (L : ℤ) (hx : 0 < x) (h1 : (2 : ℚ) ^ L ≤ x) (h2 : x < (2 : ℚ) ^ (L + 1)) :
    Int.log 2 x = L := by
  have ha : L ≤ Int.log 2 x := (Int.zpow_le_iff_le_log (by norm_num) hx).mp (by exact_mod_cast h1)
  have hb : Int.log 2 x < L + 1 := (Int.lt_zpow_iff_log_lt (by norm_num) hx).mp (by exact_mod_cast h2)
  omega

theorem roundHalfEven_intCast (n : ℤ) : roundHalfEven (n : ℚ) = n := by
  simp [roundHalfEven]

theorem roundHalfEven_near (x : ℚ) (n : ℤ) (h1 : (n : ℚ) - 1 / 2 < x) (h2 : x < n + 1 / 2) :
    roundHalfEven x = n := by
  unfold roundHalfEven
  by_cases hx : (n : ℚ) ≤ x
  · have hf : ⌊x⌋ = n := Int.floor_eq_iff.mpr ⟨hx, by linarith⟩
    rw [hf]
    have : x - (n : ℚ) < 1 / 2 := by linarith
    rw [if_pos this]
  · push_neg at hx
    have hf : ⌊x⌋ = n - 1 := Int.floor_eq_iff.mpr ⟨by push_cast; linarith, by push_cast; linarith⟩
    rw [hf]
    have h3 : ¬ (x - ((n - 1 : ℤ) : ℚ) < 1 / 2) := by push_cast; linarith
    have h4 : (1 : ℚ) / 2 < x - ((n - 1 : ℤ) : ℚ) := by push_cast; linarith
    simp only [h3, h4, if_false, if_true]
    omega

theorem roundHalfEven_tie (n : ℤ) :
    roundHalfEven ((n : ℚ) + 1 / 2) = if n % 2 = 0 then n else n + 1 := by
  unfold roundHalfEven
  have hf : ⌊(n : ℚ) + 1 / 2⌋ = n := Int.floor_eq_iff.mpr ⟨by linarith, by linarith⟩
  rw [hf]
  have h3 : ¬ ((n : ℚ) + 1 / 2 - n < 1 / 2) := by linarith
  have h4 : ¬ ((1 : ℚ) / 2 < (n : ℚ) + 1 / 2 - n) := by linarith
  simp only [h3, h4, if_false]


theorem fl64_eval (x : ℚ) (L n : ℤ) (hx : 0 < x) (h1 : (2 : ℚ) ^ L ≤ x)
    (h2 : x < (2 : ℚ) ^ (L + 1)) (hr : roundHalfEven (x * (2 : ℚ) ^ (52 - L)) = n) :
    fl64 x = (n : ℚ) / (2 : ℚ) ^ (52 - L) := by
  have hlog : Int.log 2 |x| = L := by
    rw [abs_of_pos hx]
    exact log2_eq x L hx h1 h2
  unfold fl64
  rw [if_neg (ne_of_gt hx), hlog, hr]

theorem fl64_of_significand (m : ℤ) (k : ℤ) (h1 : 2 ^ 52 ≤ m) (h2 : m < 2 ^ 53) :
    fl64 ((m : ℚ) / (2 : ℚ) ^ k) = (m : ℚ) / (2 : ℚ) ^ k := by
  have h2k : (0 : ℚ) < (2 : ℚ) ^ k := zpow_pos (by norm_num) k
  have hm : (0 : ℚ) < m := by
    have : (0 : ℤ) < m := by omega
    exact_mod_cast this
  have hx : (0 : ℚ) < (m : ℚ) / (2 : ℚ) ^ k := div_pos hm h2k
  have hL1 : (2 : ℚ) ^ (52 - k) ≤ (m : ℚ) / (2 : ℚ) ^ k := by
    rw [zpow_sub₀ (by norm_num : (2 : ℚ) ≠ 0)]
    apply div_le_div_of_nonneg_right _ (le_of_lt h2k)
    exact_mod_cast h1
  have hL2 : (m : ℚ) / (2 : ℚ) ^ k < (2 : ℚ) ^ (52 - k + 1) := by
    have e : (52 - k + 1 : ℤ) = 53 - k := by ring
    rw [e, zpow_sub₀ (by norm_num : (2 : ℚ) ≠ 0)]
    apply div_lt_div_of_pos_right _ h2k
    exact_mod_cast h2
  have hr : roundHalfEven ((m : ℚ) / (2 : ℚ) ^ k * (2 : ℚ) ^ (52 - (52 - k))) = m := by
    have e : (52 - (52 - k) : ℤ) = k := by ring
    rw [e, div_mul_cancel₀ _ (ne_of_gt h2k)]
    exact roundHalfEven_intCast m
  rw [fl64_eval _ (52 - k) m hx hL1 hL2 hr]
  have e : (52 - (52 - k) : ℤ) = k := by ring
  rw [e]

theorem fl64_tenth : fl64 (1 / 10) = 7205759403792794 / 2 ^ 56 := by
  have hr : roundHalfEven ((1 / 10 : ℚ) * (2 : ℚ) ^ (52 - (-4 : ℤ))) = 7205759403792794 := by
    apply roundHalfEven_near <;> norm_num
  have h := fl64_eval (1 / 10) (-4) 7205759403792794 (by norm_num) (by norm_num) (by norm_num) hr
  rw [h]
  norm_num

theorem fl64_fifth : fl64 (1 / 5) = 7205759403792794 / 2 ^ 55 := by
  have hr : roundHalfEven ((1 / 5 : ℚ) * (2 : ℚ) ^ (52 - (-3 : ℤ))) = 7205759403792794 := by
    apply roundHalfEven_near <;> norm_num
  have h := fl64_eval (1 / 5) (-3) 7205759403792794 (by norm_num) (by norm_num) (by norm_num) hr
  rw [h]
  norm_num

/-- A natural number below `2^53` over a power of two is a `float64`. -/
theorem fl64_dyadic (n j : ℕ) (h : n < 2 ^ 53) :
    fl64 ((n : ℚ) / (2 : ℚ) ^ j) = (n : ℚ) / (2 : ℚ) ^ j := by
  rcases Nat.eq_zero_or_pos n with h0 | hpos
  · subst h0
    simp [fl64]
  · have hL1 : 2 ^ Nat.log 2 n ≤ n := Nat.pow_log_le_self 2 (by omega)
    have hL2 : n < 2 ^ (Nat.log 2 n + 1) := Nat.lt_pow_succ_log_self (by norm_num) n
    have hL : Nat.log 2 n < 53 := by
      have : 2 ^ Nat.log 2 n < 2 ^ 53 := lt_of_le_of_lt hL1 h
      exact (Nat.pow_lt_pow_iff_right (by norm_num)).mp this
    obtain ⟨d, hd⟩ : ∃ d, Nat.log 2 n + d = 52 := ⟨52 - Nat.log 2 n, by omega⟩
    have hm1 : 2 ^ 52 ≤ n * 2 ^ d := by
      calc 2 ^ 52 = 2 ^ Nat.log 2 n * 2 ^ d := by rw [← pow_add, hd]
        _ ≤ n * 2 ^ d := Nat.mul_le_mul_right _ hL1
    have hm2 : n * 2 ^ d < 2 ^ 53 := by
      calc n * 2 ^ d < 2 ^ (Nat.log 2 n + 1) * 2 ^ d :=
            Nat.mul_lt_mul_of_pos_right hL2 (pow_pos (by norm_num) d)
        _ = 2 ^ 53 := by rw [← pow_add]; congr 1; omega
    have hx : (n : ℚ) / (2 : ℚ) ^ j
        = (((n * 2 ^ d : ℕ) : ℤ) : ℚ) / (2 : ℚ) ^ ((j + d : ℕ) : ℤ) := by
      have h2d : ((2 : ℚ) ^ d) ≠ 0 := pow_ne_zero _ (by norm_num)
      have h2j : ((2 : ℚ) ^ j) ≠ 0 := pow_ne_zero _ (by norm_num)
      rw [zpow_natCast, pow_add]
      push_cast
      field_simp
      ring
    rw [hx]
    apply fl64_of_significand
    · exact_mod_cast hm1
    · exact_mod_cast hm2

theorem fl64_natCast (n : ℕ) (h : n < 2 ^ 53) : fl64 (n : ℚ) = n := by
  have := fl64_dyadic n 0 h
  simpa using this

theorem roundHalfEven_le (t : ℚ) (m : ℤ) (h : t < (m : ℚ) + 1 / 2) : roundHalfEven t ≤ m := by
  have hf : (⌊t⌋ : ℚ) ≤ t := Int.floor_le t
  unfold roundHalfEven
  split
  · have : (⌊t⌋ : ℚ) < ((m + 1 : ℤ) : ℚ) := by push_cast; linarith
    have : ⌊t⌋ < m + 1 := by exact_mod_cast this
    omega
  · rename_i h1
    have hlt : ⌊t⌋ < m := by
      have : (⌊t⌋ : ℚ) < m := by linarith
      exact_mod_cast this
    split
    · omega
    · split <;> omega

theorem le_roundHalfEven (t : ℚ) (m : ℤ) (h : (m : ℚ) ≤ t) : m ≤ roundHalfEven t := by
  have hf : m ≤ ⌊t⌋ := Int.le_floor.mpr h
  unfold roundHalfEven
  split
  · exact hf
  · split
    · omega
    · split <;> omega

theorem fl64_le_of_scaled (x : ℚ) (L m : ℤ) (hx : 0 < x) (h1 : (2 : ℚ) ^ L ≤ x)
    (h2 : x < (2 : ℚ) ^ (L + 1)) (h : x * (2 : ℚ) ^ (52 - L) < (m : ℚ) + 1 / 2) :
    fl64 x ≤ (m : ℚ) / (2 : ℚ) ^ (52 - L) := by
  rw [fl64_eval x L _ hx h1 h2 rfl]
  apply div_le_div_of_nonneg_right _ (le_of_lt (zpow_pos (by norm_num) _))
  exact_mod_cast roundHalfEven_le _ m h

theorem fl64_ge_of_scaled (x : ℚ) (L m : ℤ) (hx : 0 < x) (h1 : (2 : ℚ) ^ L ≤ x)
    (h2 : x < (2 : ℚ) ^ (L + 1)) (h : (m : ℚ) ≤ x * (2 : ℚ) ^ (52 - L)) :
    (m : ℚ) / (2 : ℚ) ^ (52 - L) ≤ fl64 x := by
  rw [fl64_eval x L _ hx h1 h2 rfl]
  apply div_le_div_of_nonneg_right _ (le_of_lt (zpow_pos (by norm_num) _))
  exact_mod_cast le_roundHalfEven _ m h

theorem log2_bounds (x : ℚ) (hx : 0 < x) :
    (2 : ℚ) ^ Int.log 2 x ≤ x ∧ x < (2 : ℚ) ^ (Int.log 2 x + 1) := by
  have h1 := Int.zpow_log_le_self (b := 2) (by norm_num) hx
  have h2 := Int.lt_zpow_succ_log_self (b := 2) (by norm_num) x
  exact ⟨by exact_mod_cast h1, by exact_mod_cast h2⟩

theorem log2_lt_52 (x : ℚ) (hx : 0 < x) (hb : x < 2 ^ 52) : Int.log 2 x < 52 := by
  have h := (Int.lt_zpow_iff_log_lt (b := 2) (by norm_num) hx (x := 52)).mp (by exact_mod_cast hb)
  exact h

/-- Rounding does not pass a natural number from above. -/
theorem fl64_natCast_le (x : ℚ) (N : ℕ) (hx : 0 < x) (hN : (N : ℚ) ≤ x) (hb : x < 2 ^ 52) :
    (N : ℚ) ≤ fl64 x := by
  obtain ⟨h1, h2⟩ := log2_bounds x hx
  have hL := log2_lt_52 x hx hb
  obtain ⟨d, hd⟩ : ∃ d : ℕ, 52 - Int.log 2 x = (d : ℤ) := ⟨(52 - Int.log 2 x).toNat, by omega⟩
  have hpos : (0 : ℚ) < (2 : ℚ) ^ d := pow_pos (by norm_num) d
  have h := fl64_ge_of_scaled x (Int.log 2 x) ((N * 2 ^ d : ℕ) : ℤ) hx h1 h2 (by
    rw [hd, zpow_natCast]
    push_cast
    exact mul_le_mul_of_nonneg_right hN (le_of_lt hpos))
  rw [hd, zpow_natCast] at h
  push_cast at h
  rw [mul_div_assoc, div_self (ne_of_gt hpos), mul_one] at h
  exact h

/-- Rounding does not pass a natural number from below. -/
theorem fl64_le_natCast (x : ℚ) (N : ℕ) (hx : 0 < x) (hN : x ≤ (N : ℚ)) (hb : x < 2 ^ 52) :
    fl64 x ≤ (N : ℚ) := by
  obtain ⟨h1, h2⟩ := log2_bounds x hx
  have hL := log2_lt_52 x hx hb
  obtain ⟨d, hd⟩ : ∃ d : ℕ, 52 - Int.log 2 x = (d : ℤ) := ⟨(52 - Int.log 2 x).toNat, by omega⟩
  have hpos : (0 : ℚ) < (2 : ℚ) ^ d := pow_pos (by norm_num) d
  have h := fl64_le_of_scaled x (Int.log 2 x) ((N * 2 ^ d : ℕ) : ℤ) hx h1 h2 (by
    rw [hd, zpow_natCast]
    push_cast
    have := mul_le_mul_of_nonneg_right hN (le_of_lt hpos)
    linarith)
  rw [hd, zpow_natCast] at h
  push_cast at h
  rw [mul_div_assoc, div_self (ne_of_gt hpos), mul_one] at h
  exact h

/-- The tenfold of a `float64` from 6 up that is below 65536 stays below 65536
when rounded: the largest `float64` below 6553.6 is 6553.6 - 0.6 * 2^-40, and
its tenfold rounds to 65536 - 2^-37. -/
theorem fl64_tenfold_lt (c : ℚ) (hc : fl64 c = c) (h6 : 6 ≤ c) (h16 : c * 10 < 65536) :
    fl64 (c * 10) < 65536 := by
  by_cases h : c < 4096
  · have h1 := fl64_le_natCast (c * 10) 40960 (by linarith) (by push_cast; linarith)
      (by norm_num; linarith)
    push_cast at h1
    linarith
  · push_neg at h
    have hx : 0 < c := by linarith
    have e := fl64_eval c 12 _ hx (by norm_num; linarith) (by norm_num; linarith) rfl
    rw [hc] at e
    generalize roundHalfEven (c * (2 : ℚ) ^ (52 - (12 : ℤ))) = n at e
    have e2 : c = (n : ℚ) / 2 ^ 40 := e.trans (by norm_num)
    have hn : 10 * n < 72057594037927936 := by
      have : ((10 * n : ℤ) : ℚ) < ((72057594037927936 : ℤ) : ℚ) := by
        push_cast
        rw [e2] at h16
        have h40 : (0 : ℚ) < 2 ^ 40 := by norm_num
        have := (div_lt_iff₀ h40).mp (by linarith : (n : ℚ) / 2 ^ 40 < 65536 / 10)
        norm_num at this
        linarith
      exact_mod_cast this
    have hn2 : 10 * n ≤ 72057594037927930 := by omega
    have hn3 : ((10 * n : ℤ) : ℚ) ≤ ((72057594037927930 : ℤ) : ℚ) := by exact_mod_cast hn2
    push_cast at hn3
    have hb := fl64_le_of_scaled (c * 10) 15 9007199254740991 (by linarith)
      (by norm_num; linarith) (by norm_num; linarith) (by
        rw [e2]
        norm_num
        linarith)
    have : ((9007199254740991 : ℤ) : ℚ) / (2 : ℚ) ^ (52 - (15 : ℤ)) < 65536 := by norm_num
    linarith

/-- The `float64` nearest to 6.1 is `float6_1`, just below 6.1. -/
theorem fl64_6_1 : fl64 (61 / 10) = float6_1 := by
  have hr : roundHalfEven ((61 / 10 : ℚ) * (2 : ℚ) ^ (52 - (2 : ℤ))) = 6867989431740006 := by
    apply roundHalfEven_near <;> norm_num
  rw [fl64_eval (61 / 10) 2 6867989431740006 (by norm_num) (by norm_num) (by norm_num) hr]
  unfold float6_1
  norm_num

theorem float6_1_isFloat : fl64 float6_1 = float6_1 := by
  have h := fl64_dyadic 6867989431740006 50 (by norm_num)
  unfold float6_1
  exact_mod_cast h

/-- The tenfold of `float6_1` lies half way between two `float64` values and
rounds to the even one, 61. -/
theorem fl64_float6_1_tenfold : fl64 (float6_1 * 10) = 61 := by
  have hx : float6_1 * 10 * (2 : ℚ) ^ (52 - (5 : ℤ)) = ((8584986789675007 : ℤ) : ℚ) + 1 / 2 := by
    unfold float6_1
    norm_num
  have hr : roundHalfEven (float6_1 * 10 * (2 : ℚ) ^ (52 - (5 : ℤ))) = 8584986789675008 := by
    rw [hx, roundHalfEven_tie]
    norm_num
  rw [fl64_eval (float6_1 * 10) 5 8584986789675008 (by unfold float6_1; norm_num)
    (by unfold float6_1; norm_num) (by unfold float6_1; norm_num) hr]
  norm_num

/-! ### Fine current control -/

theorem uint16OfFloat_eq_floor (x : ℚ) (h0 : 0 ≤ x) (h1 : x < 65536) :
    (uint16OfFloat x : Int) = ⌊x⌋ := by
  have hnum : 0 ≤ x.num := Rat.num_nonneg.mpr h0
  have hden : (0 : Int) ≤ x.den := Int.natCast_nonneg _
  have hfl : ⌊x⌋ = x.num / x.den := Rat.floor_def
  have hf0 : 0 ≤ ⌊x⌋ := Int.floor_nonneg.mpr h0
  have hf1 : ⌊x⌋ < 65536 := by
    have : (⌊x⌋ : ℚ) ≤ x := Int.floor_le x
    have h2 : (⌊x⌋ : ℚ) < 65536 := lt_of_le_of_lt this h1
    exact_mod_cast h2
  have ht : Int.tdiv x.num x.den = ⌊x⌋ := by
    rw [Int.tdiv_eq_ediv hnum hden, ← hfl]
  unfold uint16OfFloat
  rw [ht]
  have hr : -2147483648 ≤ ⌊x⌋ ∧ ⌊x⌋ < 2147483648 := ⟨by omega, by omega⟩
  rw [if_pos hr]
  omega

theorem fl64_6554 : fl64 6554 = 6554 := by
  have h := fl64_natCast 6554 (by norm_num)
  exact_mod_cast h

theorem fl64_6554_tenfold : fl64 ((6554 : ℚ) * 10) = 65540 := by
  have h := fl64_natCast 65540 (by norm_num)
  have e : (6554 : ℚ) * 10 = ((65540 : ℕ) : ℚ) := by norm_num
  rw [e, h]
  norm_num

theorem fl64_33_2 : fl64 (33 / 2) = 33 / 2 := by
  have h := fl64_dyadic 33 1 (by norm_num)
  have e : (33 / 2 : ℚ) = ((33 : ℕ) : ℚ) / (2 : ℚ) ^ 1 := by norm_num
  rw [e]
  exact h

theorem fl64_33_2_tenfold : fl64 ((33 / 2 : ℚ) * 10) = 165 := by
  have h := fl64_natCast 165 (by norm_num)
  have e : (33 / 2 : ℚ) * 10 = ((165 : ℕ) : ℚ) := by norm_num
  rw [e, h]
  norm_num

/-- C17, as stated, fails in two ways.  At the `float64` nearest to 6.1, which
is below 6.1, the `float64` product with 10 is 61: the write succeeds, and the
value written to register 1001 and cached is 61, not floor(10 * amps) = 60, and
it stands for more than `amps`.  At 6554 A the product 65540 is exact and
does not fit 16 bits: the value written and cached is 4, which stands for
less than 6 A. -/
theorem maxCurrentMillis_not_floor :
    (fl64 (61 / 10) = float6_1 ∧ fl64 float6_1 = float6_1 ∧ (6 : ℚ) ≤ float6_1 ∧
      10 * float6_1 < 65536 ∧
      ((handle 6 1001 false).maxCurrentMillis zeroDevice float6_1).err = none ∧
      ((handle 6 1001 false).maxCurrentMillis zeroDevice float6_1).wb.conn.log
        = [Call.write 1001 1 [0, 61]] ∧
      BigEndian.Uint16 [0, 61] = some 61 ∧
      ((handle 6 1001 false).maxCurrentMillis zeroDevice float6_1).wb.current = 61 ∧
      ⌊(10 : ℚ) * float6_1⌋ = 60 ∧
      ¬ ((((handle 6 1001 false).maxCurrentMillis zeroDevice float6_1).wb.current : ℚ) / 10
        ≤ float6_1)) ∧
    (fl64 6554 = 6554 ∧ (6 : ℚ) ≤ 6554 ∧
      ((handle 6 1001 false).maxCurrentMillis zeroDevice 6554).err = none ∧
      ((handle 6 1001 false).maxCurrentMillis zeroDevice 6554).wb.conn.log
        = [Call.write 1001 1 [0, 4]] ∧
      BigEndian.Uint16 [0, 4] = some 4 ∧
      ((handle 6 1001 false).maxCurrentMillis zeroDevice 6554).wb.current = 4 ∧
      ⌊(10 : ℚ) * 6554⌋ = 65540 ∧
      ¬ ((6 : ℚ) ≤
        (((handle 6 1001 false).maxCurrentMillis zeroDevice 6554).wb.current : ℚ) / 10)) := by
  have hlt1 : ¬ (float6_1 < 6) := by
    unfold float6_1
    norm_num
  have hv1 : uint16OfFloat (fl64 (float6_1 * 10)) = 61 := by
    rw [fl64_float6_1_tenfold]
    simp [uint16OfFloat]
  have hcur1 : ((handle 6 1001 false).maxCurrentMillis zeroDevice float6_1).wb.current = 61 := by
    simp only [BenderCC.maxCurrentMillis, hlt1, if_false, hv1]
    rfl
  have hfloor1 : ⌊(10 : ℚ) * float6_1⌋ = 60 := by
    rw [Int.floor_eq_iff]
    unfold float6_1
    constructor <;> norm_num
  have hlt2 : ¬ ((6554 : ℚ) < 6) := by norm_num
  have hv2 : uint16OfFloat (fl64 ((6554 : ℚ) * 10)) = 4 := by
    rw [fl64_6554_tenfold]
    simp [uint16OfFloat]
  have hcur2 : ((handle 6 1001 false).maxCurrentMillis zeroDevice 6554).wb.current = 4 := by
    simp only [BenderCC.maxCurrentMillis, hlt2, if_false, hv2]
    rfl
  have hfloor2 : ⌊(10 : ℚ) * 6554⌋ = 65540 := by
    have h : (10 : ℚ) * 6554 = ((65540 : ℤ) : ℚ) := by norm_num
    rw [h, Int.floor_intCast]
  refine ⟨⟨fl64_6_1, float6_1_isFloat, by unfold float6_1; norm_num,
      by unfold float6_1; norm_num, ?_, ?_, rfl, hcur1, hfloor1, ?_⟩,
    ⟨fl64_6554, by norm_num, ?_, ?_, rfl, hcur2, hfloor2, ?_⟩⟩
  · simp only [BenderCC.maxCurrentMillis, hlt1, if_false, hv1]
    rfl
  · simp only [BenderCC.maxCurrentMillis, hlt1, if_false, hv1]
    rfl
  · rw [hcur1]
    unfold float6_1
    norm_num
  · simp only [BenderCC.maxCurrentMillis, hlt2, if_false, hv2]
    rfl
  · simp only [BenderCC.maxCurrentMillis, hlt2, if_false, hv2]
    rfl
  · rw [hcur2]
    norm_num

/-- C17, amended: for every `float64` `amps` with `6 ≤ amps` and
`10 * amps < 65536` and a transport whose write to register 1001 succeeds,
`maxCurrentMillis amps` returns no error, issues exactly one call, a write of
one register at 1001 whose 16-bit value is the integer part of the `float64`
product `amps * 10`, and leaves that value in the cached current; it stands
for a current of at least 6 A.  When rounding the product does not reach the
next integer, in particular when the product is exact, the value is
`floor (10 * amps)` and stands for a current of at most `amps`. -/
theorem maxCurrentMillis_writes_tenths (T : Transport σ ε) (wb : BenderCC σ) (amps : ℚ)
    (hf : fl64 amps = amps) (h6 : 6 ≤ amps) (h16 : 10 * amps < 65536)
    (hw : ∀ data,
      (T.WriteMultipleRegisters wb.conn.dev bendRegHemsCurrentLimit10 1 data).1.2 = none) :
    (wb.maxCurrentMillis T amps).err = none ∧
    (∃ data, (wb.maxCurrentMillis T amps).wb.conn.log
        = wb.conn.log ++ [Call.write 1001 1 data] ∧
      (BigEndian.Uint16 data).map Int.ofNat = some ⌊fl64 (amps * 10)⌋) ∧
    ((wb.maxCurrentMillis T amps).wb.current : Int) = ⌊fl64 (amps * 10)⌋ ∧
    (6 : ℚ) ≤ ((wb.maxCurrentMillis T amps).wb.current : ℚ) / 10 ∧
    (⌊fl64 (amps * 10)⌋ = ⌊10 * amps⌋ →
      ((wb.maxCurrentMillis T amps).wb.current : Int) = ⌊10 * amps⌋ ∧
      ((wb.maxCurrentMillis T amps).wb.current : ℚ) / 10 ≤ amps) := by
  have hlt : ¬ amps < 6 := not_lt.mpr h6
  have hx1 : amps * 10 < 65536 := by linarith
  have hp1 : fl64 (amps * 10) < 65536 := fl64_tenfold_lt amps hf h6 hx1
  have hp0 : (60 : ℚ) ≤ fl64 (amps * 10) := by
    have h := fl64_natCast_le (amps * 10) 60 (by linarith) (by push_cast; linarith)
      (by norm_num; linarith)
    push_cast at h
    exact h
  have hu : (uint16OfFloat (fl64 (amps * 10)) : Int) = ⌊fl64 (amps * 10)⌋ :=
    uint16OfFloat_eq_floor _ (by linarith) hp1
  have hfl60 : (60 : Int) ≤ ⌊fl64 (amps * 10)⌋ := by
    apply Int.le_floor.mpr
    push_cast
    exact hp0
  have hfl16 : ⌊fl64 (amps * 10)⌋ < 65536 := by
    have h2 : ((⌊fl64 (amps * 10)⌋ : Int) : ℚ) < 65536 := lt_of_le_of_lt (Int.floor_le _) hp1
    exact_mod_cast h2
  have hmod : uint16OfFloat (fl64 (amps * 10)) % 65536 = uint16OfFloat (fl64 (amps * 10)) := by
    apply Nat.mod_eq_of_lt
    omega
  have hcur : (wb.maxCurrentMillis T amps).wb.current = uint16OfFloat (fl64 (amps * 10)) := by
    simp [BenderCC.maxCurrentMillis, hlt, Connection.WriteMultipleRegisters, hw]
  have hcq : ((wb.maxCurrentMillis T amps).wb.current : ℚ)
      = ((⌊fl64 (amps * 10)⌋ : Int) : ℚ) := by
    rw [hcur, ← hu]
    push_cast
    rfl
  refine ⟨?_, ⟨BigEndian.PutUint16 (uint16OfFloat (fl64 (amps * 10))), ?_, ?_⟩, ?_, ?_, ?_⟩
  · simp [BenderCC.maxCurrentMillis, hlt, Connection.WriteMultipleRegisters, hw]
  · simp [BenderCC.maxCurrentMillis, hlt, Connection.WriteMultipleRegisters, hw]
    rfl
  · rw [Uint16_PutUint16, hmod]
    simp [hu]
  · rw [hcur]
    exact hu
  · rw [hcq]
    have h3 : ((60 : Int) : ℚ) ≤ ((⌊fl64 (amps * 10)⌋ : Int) : ℚ) := by exact_mod_cast hfl60
    push_cast at h3
    linarith
  · intro he
    refine ⟨?_, ?_⟩
    · rw [hcur, hu, he]
    · rw [hcq, he]
      have h4 : ((⌊10 * amps⌋ : Int) : ℚ) ≤ 10 * amps := Int.floor_le _
      linarith

/-- C17, amended, at 16.5 A on a device that accepts every write: the product
165 is exact, and 165 is written and cached. -/
theorem maxCurrentMillis_writes_tenths_witness :
    fl64 (33 / 2) = 33 / 2 ∧ (6 : ℚ) ≤ 33 / 2 ∧ (10 : ℚ) * (33 / 2) < 65536 ∧
    ((handle 6 1001 false).maxCurrentMillis zeroDevice (33 / 2)).err = none ∧
    (((handle 6 1001 false).maxCurrentMillis zeroDevice (33 / 2)).wb.current : Int)
      = ⌊fl64 ((33 / 2 : ℚ) * 10)⌋ ∧
    ⌊fl64 ((33 / 2 : ℚ) * 10)⌋ = ⌊(10 : ℚ) * (33 / 2)⌋ ∧
    (((handle 6 1001 false).maxCurrentMillis zeroDevice (33 / 2)).wb.current : ℚ) / 10
      ≤ 33 / 2 :=
  ⟨fl64_33_2, by norm_num, by norm_num,
    (maxCurrentMillis_writes_tenths zeroDevice (handle 6 1001 false) (33 / 2)
      fl64_33_2 (by norm_num) (by norm_num) (fun _ => rfl)).1,
    (maxCurrentMillis_writes_tenths zeroDevice (handle 6 1001 false) (33 / 2)
      fl64_33_2 (by norm_num) (by norm_num) (fun _ => rfl)).2.2.1,
    by rw [fl64_33_2_tenfold]; norm_num,
    ((maxCurrentMillis_writes_tenths zeroDevice (handle 6 1001 false) (33 / 2)
      fl64_33_2 (by norm_num) (by norm_num) (fun _ => rfl)).2.2.2.2
      (by rw [fl64_33_2_tenfold]; norm_num)).2⟩

/-! ### Round trips over a register file -/

theorem memDevice_stores : memDevice.StoresRegister := by
  intro s addr data hlen _
  match data, hlen with
  | [b0, b1], _ =>
    have h0 : (b0.val * 256 + b1.val) / 256 % 256 = b0.val := by
      have := b0.isLt
      have := b1.isLt
      omega
    have h1 : (b0.val * 256 + b1.val) % 256 = b1.val := by
      have := b1.isLt
      omega
    simp only [memDevice, memWrite, memRead, regValue, List.lookup, beq_self_eq_true,
      Option.getD_some, BigEndian.PutUint16, List.append_nil, Prod.mk.injEq, and_true, h0, h1,
      List.cons.injEq]
    exact ⟨Fin.ext (by simp [Fin.ofNat]), Fin.ext (by simp [Fin.ofNat])⟩

theorem PutUint16_length (v : Nat) : (BigEndian.PutUint16 v).length = 2 := rfl

/-- C19: over a transport that stores written registers, a successful
`phases1p3p n` for `n` = 1 or 3 is followed by `getPhases` returning `n`; the
call issued by `phases1p3p 1` is one write of 3725 and that of `phases1p3p 3`
one write of 0xFFFF, each to the single register 1002. -/
theorem phases_round_trip (T : Transport σ ε) (hs : T.StoresRegister) (wb : BenderCC σ) :
    (∀ n : Int, n = 1 ∨ n = 3 → (wb.phases1p3p T n).err = none →
      ((wb.phases1p3p T n).wb.getPhases T).map (fun r => (r.val, r.err)) = some (n, none)) ∧
    (∃ data, (wb.phases1p3p T 1).wb.conn.log = wb.conn.log ++ [Call.write 1002 1 data] ∧
      data.length = 2 ∧ BigEndian.Uint16 data = some 3725) ∧
    (∃ data, (wb.phases1p3p T 3).wb.conn.log = wb.conn.log ++ [Call.write 1002 1 data] ∧
      data.length = 2 ∧ BigEndian.Uint16 data = some 65535) := by
  refine ⟨?_, ⟨BigEndian.PutUint16 powerLimit1p, rfl, rfl, rfl⟩,
    ⟨BigEndian.PutUint16 powerLimit3p, rfl, rfl, rfl⟩⟩
  intro n hn herr
  rcases hn with rfl | rfl
  · have hw : (T.WriteMultipleRegisters wb.conn.dev bendRegHemsPowerLimit 1
        (BigEndian.PutUint16 powerLimit1p)).1.2 = none := by
      simp only [BenderCC.phases1p3p, Connection.WriteMultipleRegisters, if_true] at herr
      cases h : (T.WriteMultipleRegisters wb.conn.dev bendRegHemsPowerLimit 1
        (BigEndian.PutUint16 powerLimit1p)).1.2 with
      | none => rfl
      | some e => rw [h] at herr; cases herr
    have hrd := hs wb.conn.dev bendRegHemsPowerLimit _ (PutUint16_length powerLimit1p) hw
    simp only [BenderCC.phases1p3p, BenderCC.getPhases, Connection.WriteMultipleRegisters,
      Connection.ReadHoldingRegisters, if_true, hrd]
    rfl
  · have hw : (T.WriteMultipleRegisters wb.conn.dev bendRegHemsPowerLimit 1
        (BigEndian.PutUint16 powerLimit3p)).1.2 = none := by
      simp only [BenderCC.phases1p3p, Connection.WriteMultipleRegisters] at herr
      cases h : (T.WriteMultipleRegisters wb.conn.dev bendRegHemsPowerLimit 1
        (BigEndian.PutUint16 powerLimit3p)).1.2 with
      | none => rfl
      | some e =>
        rw [if_neg (by decide)] at herr
        rw [h] at herr
        cases herr
    have hrd := hs wb.conn.dev bendRegHemsPowerLimit _ (PutUint16_length powerLimit3p) hw
    have h31 : ¬ ((3 : Int) = 1) := by decide
    simp only [BenderCC.phases1p3p, BenderCC.getPhases, Connection.WriteMultipleRegisters,
      Connection.ReadHoldingRegisters, h31, if_false, hrd]
    rfl

/-- C19, on a plain register file: one phase is written and read back. -/
theorem phases_round_trip_witness :
    memDevice.StoresRegister ∧
    (({ conn := ⟨[], []⟩, current := 6, regCurr := 1000, legacy := false } :
      BenderCC (List (Nat × Nat))).phases1p3p memDevice 1).err = none ∧
    ((({ conn := ⟨[], []⟩, current := 6, regCurr := 1000, legacy := false } :
      BenderCC (List (Nat × Nat))).phases1p3p memDevice 1).wb.getPhases memDevice).map
        (fun r => (r.val, r.err)) = some (1, none) :=
  ⟨memDevice_stores, rfl,
    (phases_round_trip memDevice memDevice_stores
      { conn := ⟨[], []⟩, current := 6, regCurr := 1000, legacy := false }).1 1
      (Or.inl rfl) rfl⟩

theorem NewBenderCC_current (T : Transport σ ε) (dev : σ) (c : Charger σ)
    (err : Option (Error ε)) (h : NewBenderCC T (.ok dev) true = some (some c, err)) :
    c.wb.current = 6 := by
  simp only [NewBenderCC, Bool.not_true, Bool.false_eq_true, if_false] at h
  split at h
  · cases h
  · rename_i m hm
    split at h
    · cases h
    · rename_i r hr
      simp only [Option.some.injEq, Prod.mk.injEq] at h
      obtain ⟨h1, _⟩ := h
      subst h1
      have hf := identify_fields T _ r hr
      have hm1 := (probeMetering_spec T _ m hm).2.2.2.1
      simp only [BenderCC.fields, Prod.mk.injEq] at hf hm1
      change r.wb.current = 6
      rw [hf.1]
      change (probeMillis T m.wb).2.current = 6
      rw [(probeMillis_spec T m.wb).2.1, hm1.1]
      rfl

theorem uint16OfFloat_range (a : ℚ) (hf : fl64 a = a) (h6 : 6 ≤ a) (h16 : a * 10 < 65536) :
    6 ≤ uint16OfFloat (fl64 (a * 10)) ∧ uint16OfFloat (fl64 (a * 10)) < 65536 := by
  have hlt := fl64_tenfold_lt a hf h6 h16
  have hge := fl64_natCast_le (a * 10) 60 (by linarith) (by push_cast; linarith)
    (by norm_num; linarith)
  push_cast at hge
  have hu := uint16OfFloat_eq_floor (fl64 (a * 10)) (by linarith) hlt
  have hfl60 : (60 : Int) ≤ ⌊fl64 (a * 10)⌋ := by
    apply Int.le_floor.mpr
    push_cast
    linarith
  have hfl16 : ⌊fl64 (a * 10)⌋ < 65536 := by
    have h2 : ((⌊fl64 (a * 10)⌋ : Int) : ℚ) < 65536 := lt_of_le_of_lt (Int.floor_le _) hlt
    exact_mod_cast h2
  omega

/-- A method call with an argument in range keeps the cached current between 6
and the largest 16-bit value. -/
theorem call_current_inv (T : Transport σ ε) (wb : BenderCC σ) (m : Method)
    (r : Option (Error ε) × BenderCC σ) (h : call T wb m = some r) (hin : m.inRange = true)
    (hc : 6 ≤ wb.current ∧ wb.current < 65536) :
    6 ≤ r.2.current ∧ r.2.current < 65536 := by
  by_cases hm : m.setsCurrent = false
  · have hf := call_fields T wb m r hm h
    simp only [BenderCC.fields, Prod.mk.injEq] at hf
    rw [hf.1]
    exact hc
  · cases m <;> simp [Method.setsCurrent] at hm
    · rename_i c
      simp only [Method.inRange, decide_eq_true_eq] at hin
      simp only [call, Option.some.injEq] at h
      subst h
      simp only [BenderCC.MaxCurrent]
      split
      · exact hc
      · rename_i h6
        split
        · have hu := uint16OfInt_of_range c (by omega) hin
          simp only
          omega
        · exact hc
    · rename_i c
      simp only [Method.inRange, decide_eq_true_eq] at hin
      simp only [call, Option.some.injEq] at h
      subst h
      simp only [BenderCC.maxCurrentMillis]
      split
      · exact hc
      · rename_i h6
        split
        · exact uint16OfFloat_range c.val c.isFloat (not_lt.mp h6) hin
        · exact hc

theorem callAll_current_inv (T : Transport σ ε) (ms : List Method) :
    ∀ (wb wb1 : BenderCC σ), callAll T wb ms = some wb1 → (∀ m ∈ ms, m.inRange = true) →
      (6 ≤ wb.current ∧ wb.current < 65536) → 6 ≤ wb1.current ∧ wb1.current < 65536 := by
  induction ms with
  | nil =>
    intro wb wb1 h _ hc
    simp only [callAll, Option.some.injEq] at h
    subst h
    exact hc
  | cons m ms ih =>
    intro wb wb1 h hin hc
    simp only [callAll] at h
    split at h
    · cases h
    · rename_i r hr
      have h1 := call_current_inv T wb m r hr (hin m (List.mem_cons_self _ _)) hc
      exact ih r.2 wb1 h (fun x hx => hin x (List.mem_cons_of_mem _ hx)) h1

theorem reach_current_inv (T : Transport σ ε) (dev : σ) (ms : List Method) (wb : BenderCC σ)
    (h : reach T dev ms = some wb) (hin : ∀ m ∈ ms, m.inRange = true) :
    6 ≤ wb.current ∧ wb.current < 65536 := by
  unfold reach at h
  split at h
  · rename_i c err hN
    have h6 := NewBenderCC_current T dev c err hN
    exact callAll_current_inv T ms c.wb wb h hin (by omega)
  · cases h

theorem Enable_Enabled (T : Transport σ ε) (hs : T.StoresRegister) (wb : BenderCC σ)
    (enable : Bool) (herr : (wb.Enable T enable).err = none) :
    ((wb.Enable T enable).wb.Enabled T).map (fun r => (r.val, r.err))
      = some (decide ((if enable then wb.current else 0) % 65536 ≠ 0), none) := by
  have hlen : (if enable then BigEndian.PutUint16 wb.current else ([0, 0] : List Byte)).length
      = 2 := by
    cases enable <;> rfl
  have hw : (T.WriteMultipleRegisters wb.conn.dev wb.regCurr 1
      (if enable then BigEndian.PutUint16 wb.current else [0, 0])).1.2 = none := by
    simp only [BenderCC.Enable, Connection.WriteMultipleRegisters] at herr
    cases h : (T.WriteMultipleRegisters wb.conn.dev wb.regCurr 1
      (if enable then BigEndian.PutUint16 wb.current else [0, 0])).1.2 with
    | none => rfl
    | some e => rw [h] at herr; cases herr
  have hrd := hs wb.conn.dev wb.regCurr _ hlen hw
  have hdec : BigEndian.Uint16 (if enable then BigEndian.PutUint16 wb.current else [0, 0])
      = some ((if enable then wb.current else 0) % 65536) := by
    cases enable
    · rfl
    · simp only [if_true]
      exact Uint16_PutUint16 wb.current
  simp only [BenderCC.Enable, BenderCC.Enabled, Connection.WriteMultipleRegisters,
    Connection.ReadHoldingRegisters, hrd, hdec, Option.map_some']

/-- C18, as stated, fails after `MaxCurrent 65536`: on a plain register file the
handle reached from construction by that call has the cached current 0, and a
successful `Enable true` is followed by `Enabled` returning false. -/
theorem Enable_true_then_Enabled_false :
    ((reach memDevice [] [Method.MaxCurrent 65536]).bind fun wb =>
      ((wb.Enable memDevice true).wb.Enabled memDevice).map fun r =>
        (wb.current, (wb.Enable memDevice true).err.isNone, r.val, r.err.isNone))
      = some (0, true, false, true) := by
  rfl

/-- C18, amended: over a transport that stores written registers, in every
handle state reached from construction by a sequence of method calls whose
current-setting arguments fit the 16-bit register (`MaxCurrent` at most 65535
A, `maxCurrentMillis` below 6553.6 A), the cached current is never 0, a
successful `Enable true` is followed by `Enabled` returning true and a
successful `Enable false` by `Enabled` returning false. -/
theorem Enable_Enabled_round_trip (T : Transport σ ε) (hs : T.StoresRegister) (dev : σ)
    (ms : List Method) (wb : BenderCC σ) (hr : reach T dev ms = some wb)
    (hin : ∀ m ∈ ms, m.inRange = true) :
    wb.current ≠ 0 ∧
    ((wb.Enable T true).err = none →
      ((wb.Enable T true).wb.Enabled T).map (fun r => (r.val, r.err)) = some (true, none)) ∧
    ((wb.Enable T false).err = none →
      ((wb.Enable T false).wb.Enabled T).map (fun r => (r.val, r.err)) = some (false, none)) := by
  have hinv := reach_current_inv T dev ms wb hr hin
  refine ⟨by omega, ?_, ?_⟩
  · intro herr
    rw [Enable_Enabled T hs wb true herr]
    have hmod : wb.current % 65536 = wb.current := Nat.mod_eq_of_lt hinv.2
    have hne : wb.current ≠ 0 := by omega
    simp [hmod, hne]
  · intro herr
    rw [Enable_Enabled T hs wb false herr]
    simp

/-- C18, amended, on a plain register file after `MaxCurrent 16` and
`Enable false`. -/
theorem Enable_Enabled_round_trip_witness :
    memDevice.StoresRegister ∧
    (∀ m ∈ [Method.MaxCurrent 16, Method.Enable false], m.inRange = true) ∧
    ∃ wb, reach memDevice [] [Method.MaxCurrent 16, Method.Enable false] = some wb ∧
      wb.current ≠ 0 ∧
      ((wb.Enable memDevice true).wb.Enabled memDevice).map (fun r => (r.val, r.err))
        = some (true, none) :=
  ⟨memDevice_stores, by decide,
    (reach memDevice [] [Method.MaxCurrent 16, Method.Enable false]).get rfl,
    (Option.some_get _).symm,
    (Enable_Enabled_round_trip memDevice memDevice_stores []
      [Method.MaxCurrent 16, Method.Enable false] _ (Option.some_get _).symm (by decide)).1,
    (Enable_Enabled_round_trip memDevice memDevice_stores []
      [Method.MaxCurrent 16, Method.Enable false] _ (Option.some_get _).symm (by decide)).2.1 rfl⟩

/-! ### The smart-vehicle flag -/

/-- C20, as stated, fails for the flag value 2: on a current handle over a
device whose registers read 2, `soc` stops after the flag (not smart) while
`identify` goes on to read the EVCCID block (smart). -/
theorem smart_flag_two_disagrees :
    (constDevice [0, 2]).ReadHoldingRegisters (handle 6 1000 false).conn.dev 740 1
      = (([0, 2], none), ()) ∧
    BigEndian.Uint16 [0, 2] = some 2 ∧
    socReadsBattery (constDevice [0, 2]) (handle 6 1000 false) = some false ∧
    identifyReadsEVCCID (constDevice [0, 2]) (handle 6 1000 false) = some true ∧
    ((handle 6 1000 false).soc (constDevice [0, 2])).map (fun r => r.wb.conn.log)
      = some [Call.read 740 1] ∧
    ((handle 6 1000 false).identify (constDevice [0, 2])).map (fun r => r.wb.conn.log.take 2)
      = some [Call.read 740 1, Call.read 741 6] := by
  refine ⟨by rfl, by rfl, by rfl, by rfl, by rfl, by rfl⟩

theorem socReadsBattery_spec (T : Transport σ ε) (hwf : T.WellFormed) (wb : BenderCC σ)
    (b : List Byte) (dev : σ) (f : Nat)
    (hr : T.ReadHoldingRegisters wb.conn.dev bendRegSmartVehicleDetected 1 = ((b, none), dev))
    (hf : BigEndian.Uint16 b = some f) :
    socReadsBattery T wb = some (decide (f = 1)) := by
  by_cases h1 : f = 1
  · subst h1
    cases he : (T.ReadHoldingRegisters dev bendRegEVBatteryState 1).1.2 with
    | some e =>
      simp [socReadsBattery, BenderCC.soc, Connection.ReadHoldingRegisters, hr, hf, he]
    | none =>
      have hlen := hwf _ _ _ he
      obtain ⟨v, hv⟩ := Uint16_of_length _ hlen.ge
      by_cases hle : v ≤ 100
      · simp [socReadsBattery, BenderCC.soc, Connection.ReadHoldingRegisters, hr, hf, he, hv, hle]
      · simp [socReadsBattery, BenderCC.soc, Connection.ReadHoldingRegisters, hr, hf, he, hv, hle]
  · simp [socReadsBattery, BenderCC.soc, Connection.ReadHoldingRegisters, hr, hf, h1]
    decide

theorem identifyReadsEVCCID_spec (T : Transport σ ε) (wb : BenderCC σ) (hl : wb.legacy = false)
    (b : List Byte) (dev : σ) (f : Nat)
    (hr : T.ReadHoldingRegisters wb.conn.dev bendRegSmartVehicleDetected 1 = ((b, none), dev))
    (hf : BigEndian.Uint16 b = some f) :
    identifyReadsEVCCID T wb = some (decide (f ≠ 0)) := by
  by_cases h0 : f = 0
  · subst h0
    by_cases hb : bytesAsString b = []
    · cases he : (T.ReadHoldingRegisters dev bendRegUserID 10).1.2 <;>
        simp [identifyReadsEVCCID, BenderCC.identify, Connection.ReadHoldingRegisters, hl, hr, hf,
          hb, he]
    · simp [identifyReadsEVCCID, BenderCC.identify, Connection.ReadHoldingRegisters, hl, hr, hf,
        hb]
  · by_cases hb : bytesAsString (T.ReadHoldingRegisters dev bendRegEVCCID 6).1.1 ≠ [] ∨
        (T.ReadHoldingRegisters dev bendRegEVCCID 6).1.2.isSome = true
    · simp [identifyReadsEVCCID, BenderCC.identify, Connection.ReadHoldingRegisters, hl, hr, hf,
        h0, hb]
    · cases he : (T.ReadHoldingRegisters (T.ReadHoldingRegisters dev bendRegEVCCID 6).2
          bendRegUserID 10).1.2 <;>
        simp [identifyReadsEVCCID, BenderCC.identify, Connection.ReadHoldingRegisters, hl, hr, hf,
          h0, hb, he]

/-- C20, amended: on a current handle whose flag register (740) reads `f`, `soc`
goes on to read the battery state register exactly when `f = 1` and
`identify` goes on to read the EVCCID block exactly when `f ≠ 0`; so the two
agree for `f` = 0 and `f` = 1, the values the register is documented to
return. -/
theorem smart_flag_agreement (T : Transport σ ε) (hwf : T.WellFormed) (wb : BenderCC σ)
    (hl : wb.legacy = false) (b : List Byte) (dev : σ) (f : Nat)
    (hr : T.ReadHoldingRegisters wb.conn.dev 740 1 = ((b, none), dev))
    (hf : BigEndian.Uint16 b = some f) :
    socReadsBattery T wb = some (decide (f = 1)) ∧
    identifyReadsEVCCID T wb = some (decide (f ≠ 0)) ∧
    (f = 0 ∨ f = 1 → socReadsBattery T wb = identifyReadsEVCCID T wb) := by
  have h1 := socReadsBattery_spec T hwf wb b dev f hr hf
  have h2 := identifyReadsEVCCID_spec T wb hl b dev f hr hf
  refine ⟨h1, h2, ?_⟩
  rintro (rfl | rfl)
  · rw [h1, h2]
    rfl
  · rw [h1, h2]
    rfl

/-- C20, amended, on a device whose registers all read 0: neither `soc` nor
`identify` treats the vehicle as smart. -/
theorem smart_flag_agreement_witness :
    zeroDevice.WellFormed ∧ (handle 6 1000 false).legacy = false ∧
    zeroDevice.ReadHoldingRegisters (handle 6 1000 false).conn.dev 740 1
      = (([0, 0], none), ()) ∧
    BigEndian.Uint16 [0, 0] = some 0 ∧
    socReadsBattery zeroDevice (handle 6 1000 false)
      = identifyReadsEVCCID zeroDevice (handle 6 1000 false) :=
  ⟨fun _ _ count _ => by simp [zeroDevice], rfl, rfl, rfl,
    (smart_flag_agreement zeroDevice (fun _ _ count _ => by simp [zeroDevice])
      (handle 6 1000 false) rfl [0, 0] () 0 rfl rfl).2.2 (Or.inl rfl)⟩

/-! ### Energy -/

theorem energySlot_zero (a0 a1 a2 a3 : Byte) (t : List Byte) :
    energySlot (a0 :: a1 :: a2 :: a3 :: t) 0
      = some (fl64 (((a0.val * 16777216 + a1.val * 65536 + a2.val * 256 + a3.val : Nat) : ℚ)
          / 1000)) := by
  have hle : 0 ≤ 4 ∧ 4 ≤ (a0 :: a1 :: a2 :: a3 :: t).length := by
    simp only [List.length_cons]
    omega
  simp [energySlot, slice, hle, BigEndian.Uint32]

theorem energySlot_one (x0 x1 x2 x3 a0 a1 a2 a3 : Byte) (t : List Byte) :
    energySlot (x0 :: x1 :: x2 :: x3 :: a0 :: a1 :: a2 :: a3 :: t) 1
      = some (fl64 (((a0.val * 16777216 + a1.val * 65536 + a2.val * 256 + a3.val : Nat) : ℚ)
          / 1000)) := by
  have hle : 4 ≤ 8 ∧ 8 ≤ (x0 :: x1 :: x2 :: x3 :: a0 :: a1 :: a2 :: a3 :: t).length := by
    simp only [List.length_cons]
    omega
  simp [energySlot, slice, hle, BigEndian.Uint32]

theorem energySlot_two (x0 x1 x2 x3 x4 x5 x6 x7 a0 a1 a2 a3 : Byte) (t : List Byte) :
    energySlot (x0 :: x1 :: x2 :: x3 :: x4 :: x5 :: x6 :: x7 :: a0 :: a1 :: a2 :: a3 :: t) 2
      = some (fl64 (((a0.val * 16777216 + a1.val * 65536 + a2.val * 256 + a3.val : Nat) : ℚ)
          / 1000)) := by
  have hle : 8 ≤ 12 ∧ 12 ≤
      (x0 :: x1 :: x2 :: x3 :: x4 :: x5 :: x6 :: x7 :: a0 :: a1 :: a2 :: a3 :: t).length := by
    simp only [List.length_cons]
    omega
  simp [energySlot, slice, hle, BigEndian.Uint32]

/-- The value of `totalEnergy` on a legacy handle: the three quotients, each
rounded, added in order from 0 with every sum rounded. -/
theorem totalEnergy_legacy_eq (T : Transport σ ε) (wb : BenderCC σ) (hl : wb.legacy = true)
    (a0 a1 a2 a3 a4 a5 a6 a7 a8 a9 a10 a11 : Byte) (dev : σ) (e1 e2 e3 : Nat)
    (hr : T.ReadHoldingRegisters wb.conn.dev bendRegPhaseEnergy 6
      = (([a0, a1, a2, a3, a4, a5, a6, a7, a8, a9, a10, a11], none), dev))
    (h1 : e1 = a0.val * 16777216 + a1.val * 65536 + a2.val * 256 + a3.val)
    (h2 : e2 = a4.val * 16777216 + a5.val * 65536 + a6.val * 256 + a7.val)
    (h3 : e3 = a8.val * 16777216 + a9.val * 65536 + a10.val * 256 + a11.val) :
    (wb.totalEnergy T).map (fun r => (r.val, r.err))
      = some (fl64 (fl64 (fl64 (0 + fl64 ((e1 : ℚ) / 1000)) + fl64 ((e2 : ℚ) / 1000))
          + fl64 ((e3 : ℚ) / 1000)), none) := by
  subst h1 h2 h3
  simp only [BenderCC.totalEnergy, hl, if_true, Connection.ReadHoldingRegisters, hr,
    energySlot_zero, energySlot_one, energySlot_two, Option.map_some']

/-- The value of `totalEnergy` on a current handle: the rounded quotient. -/
theorem totalEnergy_current_eq (T : Transport σ ε) (wb : BenderCC σ) (hl : wb.legacy = false)
    (a0 a1 a2 a3 : Byte) (dev : σ) (v : Nat)
    (hr : T.ReadHoldingRegisters wb.conn.dev bendRegTotalEnergy 2
      = (([a0, a1, a2, a3], none), dev))
    (hv : v = a0.val * 16777216 + a1.val * 65536 + a2.val * 256 + a3.val) :
    (wb.totalEnergy T).map (fun r => (r.val, r.err)) = some (fl64 ((v : ℚ) / 1000), none) := by
  subst hv
  simp [BenderCC.totalEnergy, hl, Connection.ReadHoldingRegisters, hr, BigEndian.Uint32]

/-- The `float64` sum of the quotients of 100, 200 and 0 by 1000. -/
theorem fl64_sum_100_200_0 :
    fl64 (fl64 (fl64 (0 + fl64 (((100 : Nat) : ℚ) / 1000)) + fl64 (((200 : Nat) : ℚ) / 1000))
      + fl64 (((0 : Nat) : ℚ) / 1000)) = 5404319552844596 / 2 ^ 54 := by
  have hA : fl64 (((100 : Nat) : ℚ) / 1000) = 7205759403792794 / 2 ^ 56 := by
    have e : (((100 : Nat) : ℚ) / 1000) = 1 / 10 := by norm_num
    rw [e, fl64_tenth]
  have hB : fl64 (((200 : Nat) : ℚ) / 1000) = 7205759403792794 / 2 ^ 55 := by
    have e : (((200 : Nat) : ℚ) / 1000) = 1 / 5 := by norm_num
    rw [e, fl64_fifth]
  have hZ : fl64 (((0 : Nat) : ℚ) / 1000) = 0 := by simp [fl64]
  have hA2 : fl64 (0 + (7205759403792794 / 2 ^ 56 : ℚ)) = 7205759403792794 / 2 ^ 56 := by
    have h := fl64_of_significand 7205759403792794 56 (by norm_num) (by norm_num)
    have e : (0 + (7205759403792794 / 2 ^ 56 : ℚ))
        = ((7205759403792794 : ℤ) : ℚ) / (2 : ℚ) ^ (56 : ℤ) := by norm_num
    rw [e, h]
    norm_num
  have hS : fl64 ((7205759403792794 / 2 ^ 56 : ℚ) + 7205759403792794 / 2 ^ 55)
      = 5404319552844596 / 2 ^ 54 := by
    have hr : roundHalfEven (((7205759403792794 / 2 ^ 56 : ℚ) + 7205759403792794 / 2 ^ 55)
        * (2 : ℚ) ^ (52 - (-2 : ℤ))) = 5404319552844596 := by
      have e : ((7205759403792794 / 2 ^ 56 : ℚ) + 7205759403792794 / 2 ^ 55)
          * (2 : ℚ) ^ (52 - (-2 : ℤ)) = ((5404319552844595 : ℤ) : ℚ) + 1 / 2 := by norm_num
      rw [e, roundHalfEven_tie]
      norm_num
    have h := fl64_eval _ (-2) 5404319552844596 (by norm_num) (by norm_num) (by norm_num) hr
    rw [h]
    norm_num
  have hS2 : fl64 ((5404319552844596 / 2 ^ 54 : ℚ) + 0) = 5404319552844596 / 2 ^ 54 := by
    have h := fl64_of_significand 5404319552844596 54 (by norm_num) (by norm_num)
    have e : ((5404319552844596 / 2 ^ 54 : ℚ) + 0)
        = ((5404319552844596 : ℤ) : ℚ) / (2 : ℚ) ^ (54 : ℤ) := by norm_num
    rw [e, h]
    norm_num
  rw [hA, hB, hZ, hA2, hS, hS2]

/-- When the three energies are multiples of 1000 no operation rounds. -/
theorem fl64_sum_thousands (k1 k2 k3 : Nat) (h1 : k1 < 2 ^ 32) (h2 : k2 < 2 ^ 32)
    (h3 : k3 < 2 ^ 32) :
    fl64 (fl64 (fl64 (0 + fl64 (((1000 * k1 : Nat) : ℚ) / 1000))
      + fl64 (((1000 * k2 : Nat) : ℚ) / 1000)) + fl64 (((1000 * k3 : Nat) : ℚ) / 1000))
      = ((k1 + k2 + k3 : Nat) : ℚ) := by
  have q : ∀ k : Nat, (((1000 * k : Nat) : ℚ) / 1000) = (k : ℚ) := by
    intro k
    push_cast
    field_simp
  have b : (2 : Nat) ^ 32 < 2 ^ 53 := by norm_num
  rw [q, q, q, fl64_natCast k1 (by omega), fl64_natCast k2 (by omega), fl64_natCast k3 (by omega),
    zero_add, fl64_natCast k1 (by omega)]
  have e1 : (k1 : ℚ) + (k2 : ℚ) = ((k1 + k2 : Nat) : ℚ) := by push_cast; ring
  rw [e1, fl64_natCast (k1 + k2) (by omega)]
  have e2 : ((k1 + k2 : Nat) : ℚ) + (k3 : ℚ) = ((k1 + k2 + k3 : Nat) : ℚ) := by push_cast; ring
  rw [e2, fl64_natCast (k1 + k2 + k3) (by omega)]

/-- C11, as stated, fails on a legacy handle whose three phase energies read
100, 200 and 0: the code adds the `float64` quotients 0.1 and 0.2, and the
result is 5404319552844596 / 2^54 (0.30000000000000004), not 300 / 1000. -/
theorem totalEnergy_legacy_rounds :
    (handle 6 1000 true).legacy = true ∧
    (constDevice [0, 0, 0, 100, 0, 0, 0, 200, 0, 0, 0, 0]).ReadHoldingRegisters
        (handle 6 1000 true).conn.dev 200 6
      = (([0, 0, 0, 100, 0, 0, 0, 200, 0, 0, 0, 0], none), ()) ∧
    ((handle 6 1000 true).totalEnergy
        (constDevice [0, 0, 0, 100, 0, 0, 0, 200, 0, 0, 0, 0])).map (fun r => (r.val, r.err))
      = some (5404319552844596 / 2 ^ 54, none) ∧
    (5404319552844596 / 2 ^ 54 : ℚ) ≠ ((100 + 200 + 0 : Nat) : ℚ) / 1000 := by
  refine ⟨rfl, rfl, ?_, by norm_num⟩
  rw [totalEnergy_legacy_eq (constDevice [0, 0, 0, 100, 0, 0, 0, 200, 0, 0, 0, 0])
    (handle 6 1000 true) rfl 0 0 0 100 0 0 0 200 0 0 0 0 () 100 200 0 rfl
    (by decide) (by decide) (by decide), fl64_sum_100_200_0]

/-- C11, amended: `totalEnergy` in `float64`.  On a legacy handle and a 12-byte
response to the 6-register read at 200 the result is the sum, taken in order
from 0, of the three quotients `e / 1000`, every division and every addition
rounded to the nearest `float64`; on a current handle and a 4-byte response to
the 2-register read at 218 it is the rounded quotient of the 32-bit value by
1000.  When the values are multiples of 1000 nothing is rounded and the
result is exactly `(e1 + e2 + e3) / 1000`, respectively `v / 1000`. -/
theorem totalEnergy_decode (T : Transport σ ε) (wb : BenderCC σ) :
    (wb.legacy = true →
      ∀ (a0 a1 a2 a3 a4 a5 a6 a7 a8 a9 a10 a11 : Byte) (dev : σ) (e1 e2 e3 : Nat),
      T.ReadHoldingRegisters wb.conn.dev 200 6
        = (([a0, a1, a2, a3, a4, a5, a6, a7, a8, a9, a10, a11], none), dev) →
      e1 = a0.val * 16777216 + a1.val * 65536 + a2.val * 256 + a3.val →
      e2 = a4.val * 16777216 + a5.val * 65536 + a6.val * 256 + a7.val →
      e3 = a8.val * 16777216 + a9.val * 65536 + a10.val * 256 + a11.val →
      (wb.totalEnergy T).map (fun r => (r.val, r.err))
        = some (fl64 (fl64 (fl64 (0 + fl64 ((e1 : ℚ) / 1000)) + fl64 ((e2 : ℚ) / 1000))
            + fl64 ((e3 : ℚ) / 1000)), none) ∧
      (1000 ∣ e1 → 1000 ∣ e2 → 1000 ∣ e3 →
        (wb.totalEnergy T).map (fun r => (r.val, r.err))
          = some (((e1 + e2 + e3 : Nat) : ℚ) / 1000, none))) ∧
    (wb.legacy = false →
      ∀ (a0 a1 a2 a3 : Byte) (dev : σ) (v : Nat),
      T.ReadHoldingRegisters wb.conn.dev 218 2 = (([a0, a1, a2, a3], none), dev) →
      v = a0.val * 16777216 + a1.val * 65536 + a2.val * 256 + a3.val →
      (wb.totalEnergy T).map (fun r => (r.val, r.err)) = some (fl64 ((v : ℚ) / 1000), none) ∧
      (1000 ∣ v →
        (wb.totalEnergy T).map (fun r => (r.val, r.err)) = some ((v : ℚ) / 1000, none))) := by
  refine ⟨?_, ?_⟩
  · intro hl a0 a1 a2 a3 a4 a5 a6 a7 a8 a9 a10 a11 dev e1 e2 e3 hr h1 h2 h3
    have heq := totalEnergy_legacy_eq T wb hl a0 a1 a2 a3 a4 a5 a6 a7 a8 a9 a10 a11 dev
      e1 e2 e3 hr h1 h2 h3
    refine ⟨heq, ?_⟩
    rintro ⟨k1, rfl⟩ ⟨k2, rfl⟩ ⟨k3, rfl⟩
    have b1 : k1 < 2 ^ 32 := by
      have := a0.isLt; have := a1.isLt; have := a2.isLt; have := a3.isLt
      omega
    have b2 : k2 < 2 ^ 32 := by
      have := a4.isLt; have := a5.isLt; have := a6.isLt; have := a7.isLt
      omega
    have b3 : k3 < 2 ^ 32 := by
      have := a8.isLt; have := a9.isLt; have := a10.isLt; have := a11.isLt
      omega
    rw [heq, fl64_sum_thousands k1 k2 k3 b1 b2 b3]
    congr 2
    push_cast
    ring
  · intro hl a0 a1 a2 a3 dev v hr hv
    have heq := totalEnergy_current_eq T wb hl a0 a1 a2 a3 dev v hr hv
    refine ⟨heq, ?_⟩
    rintro ⟨k, rfl⟩
    have bk : k < 2 ^ 53 := by
      have := a0.isLt; have := a1.isLt; have := a2.isLt; have := a3.isLt
      omega
    have q : (((1000 * k : Nat) : ℚ) / 1000) = (k : ℚ) := by
      push_cast
      field_simp
    rw [heq, q, fl64_natCast k bk]

/-- C11, amended, on a legacy handle whose phase energies read 1000, 2000 and
3000, and on a current handle whose energy register reads 6000: the total is
6. -/
theorem totalEnergy_decode_witness :
    (handle 6 1000 true).legacy = true ∧
    (constDevice [0, 0, 3, 232, 0, 0, 7, 208, 0, 0, 11, 184]).ReadHoldingRegisters
        (handle 6 1000 true).conn.dev 200 6
      = (([0, 0, 3, 232, 0, 0, 7, 208, 0, 0, 11, 184], none), ()) ∧
    ((handle 6 1000 true).totalEnergy
        (constDevice [0, 0, 3, 232, 0, 0, 7, 208, 0, 0, 11, 184])).map (fun r => (r.val, r.err))
      = some (((1000 + 2000 + 3000 : Nat) : ℚ) / 1000, none) ∧
    (((1000 + 2000 + 3000 : Nat) : ℚ) / 1000 = 6) ∧
    ((handle 6 1000 false).totalEnergy (constDevice [0, 0, 23, 112])).map
        (fun r => (r.val, r.err))
      = some (((6000 : Nat) : ℚ) / 1000, none) ∧
    (((6000 : Nat) : ℚ) / 1000 = 6) :=
  ⟨rfl, rfl,
    ((totalEnergy_decode (constDevice [0, 0, 3, 232, 0, 0, 7, 208, 0, 0, 11, 184])
      (handle 6 1000 true)).1 rfl 0 0 3 232 0 0 7 208 0 0 11 184 () 1000 2000 3000
      rfl (by decide) (by decide) (by decide)).2 ⟨1, rfl⟩ ⟨2, rfl⟩ ⟨3, rfl⟩,
    by norm_num,
    ((totalEnergy_decode (constDevice [0, 0, 23, 112]) (handle 6 1000 false)).2 rfl
      0 0 23 112 () 6000 rfl (by decide)).2 ⟨6, rfl⟩,
    by norm_num⟩

end Bender
